import Mathlib

/-!
Verification of the core of a tree-walking Lox-style interpreter
(lexer → recursive-descent parser → evaluator with lexically scoped
environments), shallowly embedded from the Rust sources
`src/token.rs`, `src/lexer.rs`, `src/ast.rs`, `src/parser.rs`,
`src/environment.rs`, `src/interpreter.rs`.

Modelling conventions:
* `f64` is modelled as `Rat`.  Every numeric literal in the properties
  below is a small decimal whose `f64` image is exact, and no property
  depends on rounding, infinities or NaN.
* `HashMap<String, LiteralValue>` is modelled as an association list
  with replace-on-insert, which has the same `get`/`insert`/`contains_key`
  behaviour for the operations the code performs.
* `eprintln!`-style error reports of the lexer are collected into a list
  of `(line, message)` pairs; `println!` output of the interpreter is
  collected into a list of strings.
* A Rust `panic!`/`unreachable!`/failed `unwrap` is modelled by an
  explicit `panicked` outcome.
-/

/-- `TokenType` from src/token.rs (also duplicated in src/lexer.rs). -/
inductive TokenType where
  | LEFT_PAREN | RIGHT_PAREN | LEFT_BRACE | RIGHT_BRACE
  | COMMA | DOT | SEMICOLON
  | MINUS | PLUS | SLASH | STAR
  | GREATER | LESS | EQUAL | BANG
  | GREATER_EQUAL | LESS_EQUAL | EQUAL_EQUAL | BANG_EQUAL
  | STRING | NUMBER | IDENTIFIER
  | CLASS | VAR | SUPER | PRINT | RETURN | THIS | AND | OR
  | IF | ELSE | FALSE | TRUE | WHILE | FOR | FUN | NIL
  | EOF
deriving DecidableEq, Repr

/-- `Token` from src/token.rs: kind, lexeme, optional decoded literal, line. -/
structure Token where
  token_type : TokenType
  lexeme : String
  literal : Option String
  line : Nat
deriving DecidableEq, Repr

/-- Alias for `String`, usable inside the `LiteralValue` namespace where the
`String` constructor shadows the type. -/
abbrev Str := String

/-- `LiteralValue` from src/ast.rs (`Number(f64)` modelled as `Rat`). -/
inductive LiteralValue where
  | Number (n : Rat)
  | String (s : String)
  | Boolean (b : Bool)
  | Nil
deriving DecidableEq, Repr

/-- Rust `f64::trunc` (as an integer): rounding toward zero, i.e. `num / den`
with Lean `Int` division, which truncates toward zero. -/
def ratTrunc (q : Rat) : Int := q.num / (q.den : Int)

/-- Rust `f64::fract`: `n - n.trunc()`. -/
def ratFract (q : Rat) : Rat := q - (ratTrunc q : Rat)

/-- Rust's `f64` Display / `to_string` (shortest round-trip decimal), reached
by this program only for non-integral values.  Every non-integral value this
program produces comes from a decimal literal, so its denominator divides a
power of ten and the shortest round-trip form is the exact decimal expansion,
which this computes; other rationals (never produced) fall back to a fraction
rendering. -/
def f64_display (q : Rat) : String :=
  match (List.range 40).find? (fun k => (q * (10 : Rat) ^ k).den = 1) with
  | some k =>
      let sign := if q < 0 then "-" else ""
      let scaled := ((if q < 0 then -q else q) * (10 : Rat) ^ k).num.toNat
      let digits := toString scaled
      let digits :=
        if digits.length ≤ k then
          String.mk (List.replicate (k + 1 - digits.length) '0') ++ digits
        else digits
      sign ++ digits.dropRight k ++ "." ++ digits.takeRight k
  | none => toString q.num ++ "/" ++ toString q.den

/-- `impl Display for LiteralValue` from src/ast.rs: the parse-stage canonical
rendering.  For an integral number, Rust's `format!("{n:.1}")` prints the
truncated integer followed by exactly one fractional digit `0`. -/
def LiteralValue.display : LiteralValue → Str
  | .Number n => if ratFract n = 0 then toString (ratTrunc n) ++ ".0" else f64_display n
  | .String s => s
  | .Boolean b => if b then "true" else "false"
  | .Nil => "nil"

/-- `LiteralValue::as_string` from src/ast.rs: the runtime value rendering used
by `print`.  For an integral number, Rust's `format!("{}", *n as i64)` prints
the truncated integer with no fractional part. -/
def LiteralValue.as_string : LiteralValue → Str
  | .Number n => if ratFract n = 0 then toString (ratTrunc n) else f64_display n
  | .String s => s
  | .Boolean b => if b then "true" else "false"
  | .Nil => "nil"

/-- `Expr` from src/ast.rs. -/
inductive Expr where
  | Binary (left : Expr) (operator : Token) (right : Expr)
  | Literal (value : LiteralValue)
  | Grouping (inner : Expr)
  | Unary (operator : Token) (right : Expr)
  | Variable (name : Token)
  | Assignment (name : Token) (value : Expr)
  | Logical (left : Expr) (operator : Token) (right : Expr)
deriving DecidableEq, Repr

/-- `Statement` from src/ast.rs. -/
inductive Statement where
  | Print (e : Expr)
  | Expression (e : Expr)
  | Var (name : Token) (initializer : Option Expr)
  | Block (stmts : List Statement)
  | If (condition : Expr) (then_branch : Statement) (else_branch : Option Statement)

/-- `RuntimeError` from src/interpreter.rs. -/
structure RuntimeError where
  line : Nat
  message : String
deriving DecidableEq, Repr

/-- One scope's `HashMap<String, LiteralValue>` as an association list. -/
abbrev Scope := List (String × LiteralValue)

/-- `HashMap::insert`: replace the binding if the key is present, else add it. -/
def scopeInsert : Scope → String → LiteralValue → Scope
  | [], name, value => [(name, value)]
  | (k, v) :: rest, name, value =>
      if k = name then (name, value) :: rest else (k, v) :: scopeInsert rest name value

/-- `HashMap::get`. -/
def scopeGet : Scope → String → Option LiteralValue
  | [], _ => none
  | (k, v) :: rest, name => if k = name then some v else scopeGet rest name

/-- `HashMap::contains_key`. -/
def scopeContains (values : Scope) (name : String) : Bool :=
  (scopeGet values name).isSome

/-- `Environment` from src/environment.rs: a scope (`values`) and an optional
enclosing environment.  The Rust field `enclosing: Option<Box<Environment>>`
is flattened into the two constructors (`base` for `None`, `nest` for
`Some`), an exact bijection that keeps the type a plain (non-nested)
inductive. -/
inductive Environment where
  | base (values : Scope)
  | nest (values : Scope) (enclosing : Environment)
deriving DecidableEq

/-- `Environment::new` (also `Default`). -/
def Environment.new : Environment := .base []

/-- `Environment::with_enclosing`. -/
def Environment.with_enclosing (enclosing : Environment) : Environment :=
  .nest [] enclosing

/-- `Environment::into_enclosing`. -/
def Environment.into_enclosing : Environment → Option Environment
  | .base _ => none
  | .nest _ enclosing => some enclosing

/-- The `values` field of an `Environment`. -/
def Environment.values : Environment → Scope
  | .base values => values
  | .nest values _ => values

/-- `Environment::define`: unconditionally (re)bind in the innermost scope. -/
def Environment.define : Environment → String → LiteralValue → Environment
  | .base values, name, value => .base (scopeInsert values name value)
  | .nest values enclosing, name, value => .nest (scopeInsert values name value) enclosing

/-- `Environment::get`: search the scope chain outward. -/
def Environment.get : Environment → String → Option LiteralValue
  | .base values, name => scopeGet values name
  | .nest values enclosing, name =>
    match scopeGet values name with
    | some v => some v
    | none => enclosing.get name

/-- `Environment::assign`: mutate the first scope (searching outward) where the
name is already bound; error with line 0 when no scope binds it.  Returns the
updated environment in place of Rust's in-place mutation. -/
def Environment.assign : Environment → String → LiteralValue → Except RuntimeError Environment
  | .base values, name, value =>
    if scopeContains values name then .ok (.base (scopeInsert values name value))
    else .error ⟨0, "Undefined variable '" ++ name ++ "'"⟩
  | .nest values enclosing, name, value =>
    if scopeContains values name then .ok (.nest (scopeInsert values name value) enclosing)
    else
      match enclosing.assign name value with
      | .ok e2 => .ok (.nest values e2)
      | .error err => .error err

/-- Number of scopes in the chain. -/
def Environment.depth : Environment → Nat
  | .base _ => 1
  | .nest _ enclosing => 1 + enclosing.depth

/-- `Interpreter::is_truthy`: `Nil` and `Boolean(false)` are falsy. -/
def is_truthy : LiteralValue → Bool
  | .Nil => false
  | .Boolean false => false
  | _ => true

/-- `Interpreter::is_equal`: structural equality, cross-type pairs unequal. -/
def is_equal : LiteralValue → LiteralValue → Bool
  | .Number l, .Number r => decide (l = r)
  | .Nil, .Nil => true
  | .Boolean l, .Boolean r => l == r
  | .String l, .String r => l == r
  | _, _ => false

/-- `Interpreter::error`: a runtime error at the operator token's line. -/
def interpError (operator : Token) (message : String) : RuntimeError :=
  ⟨operator.line, message⟩

/-- `Interpreter::expect_number`. -/
def expect_number (operator : Token) (value : LiteralValue) : Except RuntimeError Rat :=
  match value with
  | .Number n => .ok n
  | _ => .error (interpError operator "Operand must be a number.")

/-- `Interpreter::expect_numbers`. -/
def expect_numbers (operator : Token) (left right : LiteralValue) :
    Except RuntimeError (Rat × Rat) :=
  match left, right with
  | .Number l, .Number r => .ok (l, r)
  | _, _ => .error (interpError operator "Operands must be numbers.")

/-- Outcome of evaluating an expression: a value, a runtime error, or a Rust
panic (an `unreachable!` arm). -/
inductive EvalOut where
  | ok (v : LiteralValue)
  | err (e : RuntimeError)
  | panicked
deriving DecidableEq, Repr

/-- Modelled from the spec: the source's `Interpreter::evaluate`
(src/interpreter.rs) has no `Expr::Logical` arm — `Expr::Logical` is declared
in src/ast.rs and constructed by the parser, but its evaluation is missing
from the source's match.  The `.Logical` arm below follows spec §4.4
(`Logical and`: evaluate left, yield it if not truthy, else evaluate and
yield right; `Logical or`: symmetric); an operator token that is neither
`and` nor `or` panics like the other unreachable operator arms.  Every other
arm is translated from the source.  The environment is threaded explicitly
in place of `&mut self`. -/
def evaluate : Expr → Environment → Environment × EvalOut
  | .Binary left operator right, env =>
    match evaluate left env with
    | (env, .err e) => (env, .err e)
    | (env, .panicked) => (env, .panicked)
    | (env, .ok leftV) =>
      match evaluate right env with
      | (env, .err e) => (env, .err e)
      | (env, .panicked) => (env, .panicked)
      | (env, .ok rightV) =>
        match operator.token_type with
        | .PLUS =>
          match leftV, rightV with
          | .Number l, .Number r => (env, .ok (.Number (l + r)))
          | .String l, .String r => (env, .ok (.String (l ++ r)))
          | _, _ =>
            (env, .err (interpError operator "Operands must be two numbers or two strings."))
        | .MINUS =>
          match expect_numbers operator leftV rightV with
          | .ok (l, r) => (env, .ok (.Number (l - r)))
          | .error e => (env, .err e)
        | .STAR =>
          match expect_numbers operator leftV rightV with
          | .ok (l, r) => (env, .ok (.Number (l * r)))
          | .error e => (env, .err e)
        | .SLASH =>
          match expect_numbers operator leftV rightV with
          | .ok (l, r) => (env, .ok (.Number (l / r)))
          | .error e => (env, .err e)
        | .GREATER =>
          match expect_numbers operator leftV rightV with
          | .ok (l, r) => (env, .ok (.Boolean (decide (l > r))))
          | .error e => (env, .err e)
        | .GREATER_EQUAL =>
          match expect_numbers operator leftV rightV with
          | .ok (l, r) => (env, .ok (.Boolean (decide (l ≥ r))))
          | .error e => (env, .err e)
        | .LESS =>
          match expect_numbers operator leftV rightV with
          | .ok (l, r) => (env, .ok (.Boolean (decide (l < r))))
          | .error e => (env, .err e)
        | .LESS_EQUAL =>
          match expect_numbers operator leftV rightV with
          | .ok (l, r) => (env, .ok (.Boolean (decide (l ≤ r))))
          | .error e => (env, .err e)
        | .EQUAL_EQUAL => (env, .ok (.Boolean (is_equal leftV rightV)))
        | .BANG_EQUAL => (env, .ok (.Boolean (!is_equal leftV rightV)))
        | _ => (env, .panicked)
  | .Literal value, env => (env, .ok value)
  | .Grouping inner, env => evaluate inner env
  | .Unary operator right, env =>
    match evaluate right env with
    | (env, .err e) => (env, .err e)
    | (env, .panicked) => (env, .panicked)
    | (env, .ok rightV) =>
      match operator.token_type with
      | .MINUS =>
        match expect_number operator rightV with
        | .ok n => (env, .ok (.Number (-n)))
        | .error e => (env, .err e)
      | .BANG => (env, .ok (.Boolean (!is_truthy rightV)))
      | _ => (env, .panicked)
  | .Variable name, env =>
    match env.get name.lexeme with
    | some v => (env, .ok v)
    | none => (env, .err ⟨name.line, "Undefined variable '" ++ name.lexeme ++ "'"⟩)
  | .Assignment name value, env =>
    match evaluate value env with
    | (env, .err e) => (env, .err e)
    | (env, .panicked) => (env, .panicked)
    | (env, .ok v) =>
      match env.assign name.lexeme v with
      | .ok env2 => (env2, .ok v)
      | .error e => (env, .err e)
  | .Logical left operator right, env =>
    match evaluate left env with
    | (env, .err e) => (env, .err e)
    | (env, .panicked) => (env, .panicked)
    | (env, .ok leftV) =>
      match operator.token_type with
      | .AND => if is_truthy leftV then evaluate right env else (env, .ok leftV)
      | .OR => if is_truthy leftV then (env, .ok leftV) else evaluate right env
      | _ => (env, .panicked)

/-- The interpreter's mutable state: its environment plus the collected
`println!` output of `print` statements. -/
structure InterpState where
  environment : Environment
  output : List String

/-- Outcome of executing a statement. -/
inductive RunOut where
  | ok
  | err (e : RuntimeError)
  | panicked
deriving DecidableEq, Repr

mutual

/-- Modelled from the spec: the source's `Interpreter::run`
(src/interpreter.rs) has no `Statement::If` arm — `Statement::If` is declared
in src/ast.rs and constructed by the parser, but its execution is missing from
the source's match.  The `.If` arm below follows spec §4.5 (evaluate the
condition; if truthy execute the then-branch; else execute the else-branch if
present, else no-op).  Every other arm is translated from the source; the
`Block` arm pushes a fresh scope, runs the statements, and pops the scope via
`into_enclosing().unwrap()` whatever the result was (a failed unwrap is the
`panicked` outcome). -/
def run : Statement → InterpState → InterpState × RunOut
  | .Print expr, st =>
    match evaluate expr st.environment with
    | (env, .ok value) => ({ environment := env, output := st.output ++ [value.as_string] }, .ok)
    | (env, .err e) => ({ st with environment := env }, .err e)
    | (env, .panicked) => ({ st with environment := env }, .panicked)
  | .Expression expr, st =>
    match evaluate expr st.environment with
    | (env, .ok _) => ({ st with environment := env }, .ok)
    | (env, .err e) => ({ st with environment := env }, .err e)
    | (env, .panicked) => ({ st with environment := env }, .panicked)
  | .Var name initializer, st =>
    match initializer with
    | some init =>
      match evaluate init st.environment with
      | (env, .ok value) => ({ st with environment := env.define name.lexeme value }, .ok)
      | (env, .err e) => ({ st with environment := env }, .err e)
      | (env, .panicked) => ({ st with environment := env }, .panicked)
    | none =>
      ({ st with environment := st.environment.define name.lexeme LiteralValue.Nil }, .ok)
  | .Block statements, st =>
    match runList statements { st with environment := Environment.with_enclosing st.environment } with
    | (st2, .panicked) => (st2, .panicked)
    | (st2, r) =>
      match st2.environment.into_enclosing with
      | some env => ({ st2 with environment := env }, r)
      | none => (st2, .panicked)
  | .If condition then_branch else_branch, st =>
    match evaluate condition st.environment with
    | (env, .ok v) =>
      if is_truthy v then run then_branch { st with environment := env }
      else
        match else_branch with
        | some eb => run eb { st with environment := env }
        | none => ({ st with environment := env }, .ok)
    | (env, .err e) => ({ st with environment := env }, .err e)
    | (env, .panicked) => ({ st with environment := env }, .panicked)

/-- `statements.into_iter().try_for_each(|s| self.run(s))`: run in order,
stopping at the first error (or panic). -/
def runList : List Statement → InterpState → InterpState × RunOut
  | [], st => (st, .ok)
  | s :: rest, st =>
    match run s st with
    | (st2, .ok) => runList rest st2
    | (st2, .err e) => (st2, .err e)
    | (st2, .panicked) => (st2, .panicked)

end

/-- The interpreter's initial state (`Interpreter::new`). -/
def initState : InterpState := { environment := Environment.new, output := [] }

/-- The digits of a decimal numeral as a `Nat` (`none` when empty or not all
digits). -/
def digitsVal : List Char → Option Nat
  | [] => none
  | cs =>
    if cs.all Char.isDigit then
      some (cs.foldl (fun a c => a * 10 + (c.toNat - 48)) 0)
    else none

/-- `str::parse::<f64>`, modelled on the decimal forms `digits ('.' digits)?`
that this program ever feeds it (number lexemes scanned by the lexer, and the
lexer's own `format_number` output); the decoded value is the exact rational.
Other inputs, which `f64`'s full grammar would partly accept but which never
occur here, are rejected. -/
def parse_f64 (s : String) : Option Rat :=
  match s.toList.splitOn '.' with
  | [intPart] => (digitsVal intPart).map (fun n => (n : Rat))
  | [intPart, fracPart] =>
    match digitsVal intPart, digitsVal fracPart with
    | some i, some f => some ((i : Rat) + (f : Rat) / (10 : Rat) ^ fracPart.length)
    | _, _ => none
  | _ => none

/-- `Lexer::format_number`: the decoded-literal rendering stored in a NUMBER
token (same body as the `Number` arm of `Display for LiteralValue`). -/
def format_number (number : Rat) : String :=
  if ratFract number = 0 then toString (ratTrunc number) ++ ".0" else f64_display number

/-- `Lexer::is_alpha`: `c.is_alphabetic() || c == '_'`.  Unicode alphabetics
beyond ASCII are not modelled; no verified property scans one. -/
def is_alpha (c : Char) : Bool := c.isAlpha || c == '_'

/-- `Lexer::is_alpha_numeric`: `c.is_alphanumeric() || c == '_'` (same ASCII
modelling remark as `is_alpha`). -/
def is_alpha_numeric (c : Char) : Bool := c.isAlphanum || c == '_'

/-- The `KEYWORDS` table from src/lexer.rs: case-sensitive exact match. -/
def keywordType : String → Option TokenType
  | "class" => some .CLASS
  | "var" => some .VAR
  | "super" => some .SUPER
  | "print" => some .PRINT
  | "return" => some .RETURN
  | "this" => some .THIS
  | "and" => some .AND
  | "or" => some .OR
  | "if" => some .IF
  | "else" => some .ELSE
  | "true" => some .TRUE
  | "false" => some .FALSE
  | "while" => some .WHILE
  | "for" => some .FOR
  | "fun" => some .FUN
  | "nil" => some .NIL
  | _ => none

/-- `Lexer` from src/lexer.rs.  `errors` collects the `(line, message)` pairs
the Rust code reports through `error`/`report` (which print to stderr and set
`had_error`). -/
structure Lexer where
  source : List Char
  tokens : List Token
  current : Nat
  start : Nat
  line : Nat
  had_error : Bool
  errors : List (Nat × String)

/-- `Lexer::new`. -/
def Lexer.new (source : String) : Lexer :=
  { source := source.toList, tokens := [], current := 0, start := 0, line := 1,
    had_error := false, errors := [] }

/-- `Lexer::is_at_end`. -/
def Lexer.is_at_end (lx : Lexer) : Bool := lx.source.length ≤ lx.current

/-- `Lexer::peek`: `'\0'` at end of input, else the current character. -/
def Lexer.peek (lx : Lexer) : Char :=
  if lx.is_at_end then '\x00' else (lx.source.get? lx.current).getD '\x00'

/-- `Lexer::peek_next`. -/
def Lexer.peek_next (lx : Lexer) : Char :=
  if lx.source.length ≤ lx.current + 1 then '\x00'
  else (lx.source.get? (lx.current + 1)).getD '\x00'

/-- `Lexer::advance`: return the current character and step past it.  The Rust
index expression panics when out of bounds; every caller guards with
`is_at_end`, and the `getD` default is never read. -/
def Lexer.advance (lx : Lexer) : Char × Lexer :=
  ((lx.source.get? lx.current).getD '\x00', { lx with current := lx.current + 1 })

/-- `Lexer::match_char`. -/
def Lexer.match_char (lx : Lexer) (expected : Char) : Bool × Lexer :=
  if lx.is_at_end || ((lx.source.get? lx.current).getD '\x00' != expected) then (false, lx)
  else (true, { lx with current := lx.current + 1 })

/-- `Lexer::get_lexeme`: `source[start..current]` as a string. -/
def Lexer.get_lexeme (lx : Lexer) : String :=
  String.mk ((lx.source.drop lx.start).take (lx.current - lx.start))

/-- `Lexer::add_token`. -/
def Lexer.add_token (lx : Lexer) (token_type : TokenType) (literal : Option String) : Lexer :=
  { lx with tokens := lx.tokens ++
      [{ token_type := token_type, lexeme := lx.get_lexeme, literal := literal, line := lx.line }] }

/-- `Lexer::eof_token`. -/
def Lexer.eof_token (lx : Lexer) : Lexer :=
  { lx with tokens := lx.tokens ++
      [{ token_type := .EOF, lexeme := "", literal := none, line := lx.line }] }

/-- `Lexer::report` (via `Lexer::error`): record the report and set
`had_error`. -/
def Lexer.error (lx : Lexer) (line : Nat) (message : String) : Lexer :=
  { lx with errors := lx.errors ++ [(line, message)], had_error := true }

/-- The `//` comment loop of `Lexer::scan_slash`: consume to end of line.
`fuel` only bounds the iteration count so the recursion is structural; each
iteration consumes one character, so `source.length + 1` never runs out. -/
def Lexer.commentLoop : Nat → Lexer → Lexer
  | 0, lx => lx
  | fuel + 1, lx =>
    if lx.peek != '\n' && !lx.is_at_end then
      Lexer.commentLoop fuel { lx with current := lx.current + 1 }
    else lx

/-- `Lexer::scan_slash`. -/
def Lexer.scan_slash (lx : Lexer) : Lexer :=
  let (matched, lx) := lx.match_char '/'
  if matched then Lexer.commentLoop (lx.source.length + 1) lx
  else lx.add_token .SLASH none

/-- `Lexer::scan_comparison`. -/
def Lexer.scan_comparison (lx : Lexer) (single double : TokenType) : Lexer :=
  let (matched, lx) := lx.match_char '='
  lx.add_token (if matched then double else single) none

/-- The scan loop of `Lexer::string`: consume to the closing quote or end of
input, counting newlines (same fuel remark as `commentLoop`). -/
def Lexer.stringLoop : Nat → Lexer → Lexer
  | 0, lx => lx
  | fuel + 1, lx =>
    if lx.peek != '"' && !lx.is_at_end then
      let lx := if lx.peek == '\n' then { lx with line := lx.line + 1 } else lx
      Lexer.stringLoop fuel { lx with current := lx.current + 1 }
    else lx

/-- `Lexer::string`. -/
def Lexer.string (lx : Lexer) : Lexer :=
  let lx := Lexer.stringLoop (lx.source.length + 1) lx
  if lx.is_at_end then lx.error lx.line "Unterminated string."
  else
    let lx := lx.advance.2
    let literal := String.mk ((lx.source.drop (lx.start + 1)).take (lx.current - 1 - (lx.start + 1)))
    lx.add_token .STRING (some literal)

/-- `Lexer::consume_digits` (same fuel remark as `commentLoop`). -/
def Lexer.consume_digits : Nat → Lexer → Lexer
  | 0, lx => lx
  | fuel + 1, lx =>
    if lx.peek.isDigit then Lexer.consume_digits fuel { lx with current := lx.current + 1 }
    else lx

/-- `Lexer::number`. -/
def Lexer.number (lx : Lexer) : Lexer :=
  let lx := Lexer.consume_digits (lx.source.length + 1) lx
  let lx :=
    if lx.peek == '.' && lx.peek_next.isDigit then
      Lexer.consume_digits (lx.source.length + 1) { lx with current := lx.current + 1 }
    else lx
  let value := lx.get_lexeme
  match parse_f64 value with
  | some number => lx.add_token .NUMBER (some (format_number number))
  | none => lx.error lx.line ("Invalid number: " ++ value)

/-- The identifier loop plus keyword lookup of `Lexer::identifier` (same fuel
remark as `commentLoop`). -/
def Lexer.idLoop : Nat → Lexer → Lexer
  | 0, lx => lx
  | fuel + 1, lx =>
    if is_alpha_numeric lx.peek then Lexer.idLoop fuel { lx with current := lx.current + 1 }
    else lx

/-- `Lexer::identifier`. -/
def Lexer.identifier (lx : Lexer) : Lexer :=
  let lx := Lexer.idLoop (lx.source.length + 1) lx
  let text := lx.get_lexeme
  lx.add_token ((keywordType text).getD .IDENTIFIER) none

/-- `Lexer::scan_token`.  The digit and alphabetic guard arms of the Rust
match are the two `if`s of the final arm; no literal arm below matches a digit
or an alphabetic character, so the dispatch order is the same. -/
def Lexer.scan_token (lx : Lexer) : Lexer :=
  let (c, lx) := lx.advance
  match c with
  | '(' => lx.add_token .LEFT_PAREN none
  | ')' => lx.add_token .RIGHT_PAREN none
  | '\x7b' => lx.add_token .LEFT_BRACE none
  | '\x7d' => lx.add_token .RIGHT_BRACE none
  | ',' => lx.add_token .COMMA none
  | '.' => lx.add_token .DOT none
  | ';' => lx.add_token .SEMICOLON none
  | '-' => lx.add_token .MINUS none
  | '+' => lx.add_token .PLUS none
  | '*' => lx.add_token .STAR none
  | '/' => lx.scan_slash
  | '>' => lx.scan_comparison .GREATER .GREATER_EQUAL
  | '<' => lx.scan_comparison .LESS .LESS_EQUAL
  | '=' => lx.scan_comparison .EQUAL .EQUAL_EQUAL
  | '!' => lx.scan_comparison .BANG .BANG_EQUAL
  | '"' => lx.string
  | ' ' => lx
  | '\r' => lx
  | '\t' => lx
  | '\n' => { lx with line := lx.line + 1 }
  | c =>
    if c.isDigit then lx.number
    else if is_alpha c then lx.identifier
    else lx.error lx.line ("Unexpected character: " ++ String.mk [c])

/-- The `while !self.is_at_end()` loop of `Lexer::scan_tokens` (same fuel
remark as `commentLoop`: `scan_token` always consumes at least one character). -/
def Lexer.scanLoop : Nat → Lexer → Lexer
  | 0, lx => lx
  | fuel + 1, lx =>
    if lx.is_at_end then lx
    else Lexer.scanLoop fuel (Lexer.scan_token { lx with start := lx.current })

/-- `Lexer::scan_tokens` on a fresh lexer: scan the whole source, then append
the end-of-input token. -/
def scan_tokens (source : String) : Lexer :=
  Lexer.eof_token (Lexer.scanLoop ((Lexer.new source).source.length + 1) (Lexer.new source))

/-- `ParseError` from src/parser.rs. -/
structure ParseError where
  line : Nat
  location : String
  message : String
deriving DecidableEq, Repr

/-- How a run of the modelled parser can stop short of a value:
* `oob` — the Rust code would have performed an out-of-bounds slice index
  (`tokens[current]`, or `previous` with `current == 0`), i.e. a panic;
* `fuel` — the structural-recursion fuel ran out (the approximation of one
  more unfolding of the Rust recursion, never a behaviour of the code);
* `perr e` — an ordinary `ParseError` return. -/
inductive PErr where
  | oob
  | fuel
  | perr (e : ParseError)
deriving DecidableEq, Repr

/-- Sequencing for parser steps that thread the cursor (the `?` operator on
`Result` plus `&mut self`): stop on the first error. -/
def pbind (m : Except PErr (α × Nat)) (f : α → Nat → Except PErr (β × Nat)) :
    Except PErr (β × Nat) :=
  match m with
  | .error e => .error e
  | .ok (a, cur) => f a cur

/-- Sequencing for read-only parser steps (those returning a borrowed value). -/
def rbind (m : Except PErr α) (f : α → Except PErr (β × Nat)) : Except PErr (β × Nat) :=
  match m with
  | .error e => .error e
  | .ok a => f a

/-- `Parser::is_at_end`: the current token is missing or the end-of-input
token.  (`tokens` is the parser's never-mutated token vector; the cursor
`current` is threaded explicitly.) -/
def isAtEndP (tk : List Token) (cur : Nat) : Bool :=
  match tk.get? cur with
  | none => true
  | some t => t.token_type == .EOF

/-- `Parser::peek`: `tokens[current]`, an out-of-bounds panic when the index
is past the end. -/
def peekP (tk : List Token) (cur : Nat) : Except PErr Token :=
  match tk.get? cur with
  | some t => .ok t
  | none => .error .oob

/-- `Parser::previous`: `tokens[current - 1]`, an out-of-bounds panic when
`current` is `0` (Rust `usize` underflow) or past the end. -/
def previousP (tk : List Token) (cur : Nat) : Except PErr Token :=
  if cur = 0 then .error .oob
  else
    match tk.get? (cur - 1) with
    | some t => .ok t
    | none => .error .oob

/-- `Parser::advance`: step the cursor unless at end, then return `previous`. -/
def advanceP (tk : List Token) (cur : Nat) : Except PErr (Token × Nat) :=
  let cur := if isAtEndP tk cur then cur else cur + 1
  match previousP tk cur with
  | .ok t => .ok (t, cur)
  | .error e => .error e

/-- `Parser::check`: `!is_at_end && peek.token_type == t`.  When not at end
the peek index is in bounds, so this is total. -/
def checkP (tk : List Token) (token_type : TokenType) (cur : Nat) : Bool :=
  !isAtEndP tk cur &&
    (match tk.get? cur with
     | some t => t.token_type == token_type
     | none => false)

/-- `Parser::match_any`: if some listed kind checks, advance and report true. -/
def matchAnyP (tk : List Token) (tts : List TokenType) (cur : Nat) :
    Except PErr (Bool × Nat) :=
  if tts.any (fun t => checkP tk t cur) then
    pbind (advanceP tk cur) (fun _ cur => .ok (true, cur))
  else .ok (false, cur)

/-- `Parser::error`: build a `ParseError` at the current token (calls `peek`,
so it too indexes the token vector). -/
def mkErrorP (tk : List Token) (message : String) (cur : Nat) : Except PErr ParseError :=
  match peekP tk cur with
  | .error e => .error e
  | .ok token =>
    .ok { line := token.line,
          location :=
            if token.token_type = .EOF then "at end"
            else "at '" ++ token.lexeme ++ "'",
          message := message }

/-- `return Err(self.error(message))`. -/
def pthrow (tk : List Token) (message : String) (cur : Nat) : Except PErr (α × Nat) :=
  match mkErrorP tk message cur with
  | .ok e => .error (.perr e)
  | .error e => .error e

/-- `Parser::consume`. -/
def consumeP (tk : List Token) (token_type : TokenType) (message : String) (cur : Nat) :
    Except PErr (Token × Nat) :=
  if checkP tk token_type cur then advanceP tk cur
  else pthrow tk message cur

/-- The shared `self.advance(); Ok(expr)` tail of `Parser::primary`. -/
def pfinish (tk : List Token) (e : Expr) (cur : Nat) : Except PErr (Expr × Nat) :=
  pbind (advanceP tk cur) (fun _ cur => .ok (e, cur))

mutual

/-- `Parser::primary` from src/parser.rs.  In the `IDENTIFIER` arm the cloned
`name` is the very token `peek` returned.  All grammar functions take a fuel
argument that only makes the Rust mutual recursion structural; running out of
fuel is reported as `PErr.fuel`, never as a parse result. -/
def primary (tk : List Token) : Nat → Nat → Except PErr (Expr × Nat)
  | 0, _ => .error .fuel
  | fuel + 1, cur =>
    rbind (peekP tk cur) (fun token =>
      match token.token_type with
      | .TRUE => pfinish tk (.Literal (.Boolean true)) cur
      | .FALSE => pfinish tk (.Literal (.Boolean false)) cur
      | .NIL => pfinish tk (.Literal .Nil) cur
      | .NUMBER =>
        match token.literal with
        | none => pthrow tk "Expected number literal" cur
        | some lit =>
          match parse_f64 lit with
          | some n => pfinish tk (.Literal (.Number n)) cur
          | none => pthrow tk "Invalid number literal" cur
      | .STRING =>
        match token.literal with
        | none => pthrow tk "Expected string literal" cur
        | some s => pfinish tk (.Literal (.String s)) cur
      | .LEFT_PAREN =>
        pbind (advanceP tk cur) (fun _ cur =>
        pbind (expression tk fuel cur) (fun inner cur =>
        pbind (consumeP tk .RIGHT_PAREN "Expect ')' after expression" cur) (fun _ cur =>
        .ok (.Grouping inner, cur))))
      | .IDENTIFIER =>
        pbind (advanceP tk cur) (fun _ cur => .ok (.Variable token, cur))
      | _ => pthrow tk "Expected expression" cur)

/-- `Parser::unary`. -/
def unary (tk : List Token) : Nat → Nat → Except PErr (Expr × Nat)
  | 0, _ => .error .fuel
  | fuel + 1, cur =>
    pbind (matchAnyP tk [.BANG, .MINUS] cur) (fun matched cur =>
      if matched then
        rbind (previousP tk cur) (fun operator =>
        pbind (unary tk fuel cur) (fun right cur =>
        .ok (.Unary operator right, cur)))
      else primary tk fuel cur)

/-- The `while` chain of `Parser::factor`. -/
def factorLoop (tk : List Token) : Nat → Expr → Nat → Except PErr (Expr × Nat)
  | 0, _, _ => .error .fuel
  | fuel + 1, expr, cur =>
    pbind (matchAnyP tk [.STAR, .SLASH] cur) (fun matched cur =>
      if matched then
        rbind (previousP tk cur) (fun operator =>
        pbind (unary tk fuel cur) (fun right cur =>
        factorLoop tk fuel (.Binary expr operator right) cur))
      else .ok (expr, cur))

/-- `Parser::factor`. -/
def factor (tk : List Token) : Nat → Nat → Except PErr (Expr × Nat)
  | 0, _ => .error .fuel
  | fuel + 1, cur =>
    pbind (unary tk fuel cur) (fun expr cur => factorLoop tk fuel expr cur)

/-- The `while` chain of `Parser::term`. -/
def termLoop (tk : List Token) : Nat → Expr → Nat → Except PErr (Expr × Nat)
  | 0, _, _ => .error .fuel
  | fuel + 1, expr, cur =>
    pbind (matchAnyP tk [.PLUS, .MINUS] cur) (fun matched cur =>
      if matched then
        rbind (previousP tk cur) (fun operator =>
        pbind (factor tk fuel cur) (fun right cur =>
        termLoop tk fuel (.Binary expr operator right) cur))
      else .ok (expr, cur))

/-- `Parser::term`. -/
def term (tk : List Token) : Nat → Nat → Except PErr (Expr × Nat)
  | 0, _ => .error .fuel
  | fuel + 1, cur =>
    pbind (factor tk fuel cur) (fun expr cur => termLoop tk fuel expr cur)

/-- The `while` chain of `Parser::comparison`. -/
def comparisonLoop (tk : List Token) : Nat → Expr → Nat → Except PErr (Expr × Nat)
  | 0, _, _ => .error .fuel
  | fuel + 1, expr, cur =>
    pbind (matchAnyP tk [.GREATER, .GREATER_EQUAL, .LESS, .LESS_EQUAL] cur) (fun matched cur =>
      if matched then
        rbind (previousP tk cur) (fun operator =>
        pbind (term tk fuel cur) (fun right cur =>
        comparisonLoop tk fuel (.Binary expr operator right) cur))
      else .ok (expr, cur))

/-- `Parser::comparison`. -/
def comparison (tk : List Token) : Nat → Nat → Except PErr (Expr × Nat)
  | 0, _ => .error .fuel
  | fuel + 1, cur =>
    pbind (term tk fuel cur) (fun expr cur => comparisonLoop tk fuel expr cur)

/-- The `while` chain of `Parser::equality`. -/
def equalityLoop (tk : List Token) : Nat → Expr → Nat → Except PErr (Expr × Nat)
  | 0, _, _ => .error .fuel
  | fuel + 1, expr, cur =>
    pbind (matchAnyP tk [.BANG_EQUAL, .EQUAL_EQUAL] cur) (fun matched cur =>
      if matched then
        rbind (previousP tk cur) (fun operator =>
        pbind (comparison tk fuel cur) (fun right cur =>
        equalityLoop tk fuel (.Binary expr operator right) cur))
      else .ok (expr, cur))

/-- `Parser::equality`. -/
def equality (tk : List Token) : Nat → Nat → Except PErr (Expr × Nat)
  | 0, _ => .error .fuel
  | fuel + 1, cur =>
    pbind (comparison tk fuel cur) (fun expr cur => equalityLoop tk fuel expr cur)

/-- The `while` chain of `Parser::logical_and`. -/
def logicalAndLoop (tk : List Token) : Nat → Expr → Nat → Except PErr (Expr × Nat)
  | 0, _, _ => .error .fuel
  | fuel + 1, expr, cur =>
    pbind (matchAnyP tk [.AND] cur) (fun matched cur =>
      if matched then
        rbind (previousP tk cur) (fun operator =>
        pbind (equality tk fuel cur) (fun right cur =>
        logicalAndLoop tk fuel (.Logical expr operator right) cur))
      else .ok (expr, cur))

/-- `Parser::logical_and`. -/
def logical_and (tk : List Token) : Nat → Nat → Except PErr (Expr × Nat)
  | 0, _ => .error .fuel
  | fuel + 1, cur =>
    pbind (equality tk fuel cur) (fun expr cur => logicalAndLoop tk fuel expr cur)

/-- The `while` chain of `Parser::logical_or`. -/
def logicalOrLoop (tk : List Token) : Nat → Expr → Nat → Except PErr (Expr × Nat)
  | 0, _, _ => .error .fuel
  | fuel + 1, expr, cur =>
    pbind (matchAnyP tk [.OR] cur) (fun matched cur =>
      if matched then
        rbind (previousP tk cur) (fun operator =>
        pbind (logical_and tk fuel cur) (fun right cur =>
        logicalOrLoop tk fuel (.Logical expr operator right) cur))
      else .ok (expr, cur))

/-- `Parser::logical_or`. -/
def logical_or (tk : List Token) : Nat → Nat → Except PErr (Expr × Nat)
  | 0, _ => .error .fuel
  | fuel + 1, cur =>
    pbind (logical_and tk fuel cur) (fun expr cur => logicalOrLoop tk fuel expr cur)

/-- `Parser::assignment`, including the source's curious trailing
`if self.match_any(&[OR]) { self.logical_or()?; }` branch, which parses a
further `or` chain and discards its result. -/
def assignment (tk : List Token) : Nat → Nat → Except PErr (Expr × Nat)
  | 0, _ => .error .fuel
  | fuel + 1, cur =>
    pbind (logical_or tk fuel cur) (fun expr cur =>
    pbind (matchAnyP tk [.EQUAL] cur) (fun matchedEq cur =>
      if matchedEq then
        pbind (assignment tk fuel cur) (fun value cur =>
          match expr with
          | .Variable name => .ok (.Assignment name value, cur)
          | _ => pthrow tk "Invalid assignment target." cur)
      else
        pbind (matchAnyP tk [.OR] cur) (fun matchedOr cur =>
          if matchedOr then
            pbind (logical_or tk fuel cur) (fun _ cur => .ok (expr, cur))
          else .ok (expr, cur))))

/-- `Parser::expression`. -/
def expression (tk : List Token) : Nat → Nat → Except PErr (Expr × Nat)
  | 0, _ => .error .fuel
  | fuel + 1, cur => assignment tk fuel cur

/-- `Parser::statement`. -/
def statement (tk : List Token) : Nat → Nat → Except PErr (Statement × Nat)
  | 0, _ => .error .fuel
  | fuel + 1, cur =>
    pbind (matchAnyP tk [.PRINT] cur) (fun isPrint cur =>
      if isPrint then print_statement tk fuel cur
      else
        pbind (matchAnyP tk [.VAR] cur) (fun isVar cur =>
          if isVar then var_statement tk fuel cur
          else
            pbind (matchAnyP tk [.LEFT_BRACE] cur) (fun isBrace cur =>
              if isBrace then
                pbind (blockP tk fuel cur) (fun stmts cur => .ok (.Block stmts, cur))
              else
                pbind (matchAnyP tk [.IF] cur) (fun isIf cur =>
                  if isIf then if_statement tk fuel cur
                  else expression_statement tk fuel cur))))

/-- `Parser::var_statement`. -/
def var_statement (tk : List Token) : Nat → Nat → Except PErr (Statement × Nat)
  | 0, _ => .error .fuel
  | fuel + 1, cur =>
    pbind (consumeP tk .IDENTIFIER "Expect variable name." cur) (fun name cur =>
    pbind
      (if checkP tk .EQUAL cur then
        pbind (advanceP tk cur) (fun _ cur =>
        pbind (expression tk fuel cur) (fun e cur => .ok (some e, cur)))
      else .ok (none, cur))
      (fun initializer cur =>
    pbind (consumeP tk .SEMICOLON "Expect ';' after variable declaration." cur) (fun _ cur =>
    .ok (.Var name initializer, cur))))

/-- `Parser::print_statement`. -/
def print_statement (tk : List Token) : Nat → Nat → Except PErr (Statement × Nat)
  | 0, _ => .error .fuel
  | fuel + 1, cur =>
    pbind (expression tk fuel cur) (fun value cur =>
    pbind (consumeP tk .SEMICOLON "Expect ';' after value." cur) (fun _ cur =>
    .ok (.Print value, cur)))

/-- `Parser::expression_statement`. -/
def expression_statement (tk : List Token) : Nat → Nat → Except PErr (Statement × Nat)
  | 0, _ => .error .fuel
  | fuel + 1, cur =>
    pbind (expression tk fuel cur) (fun e cur =>
    pbind (consumeP tk .SEMICOLON "Expect ';' after expression." cur) (fun _ cur =>
    .ok (.Expression e, cur)))

/-- The statement loop of `Parser::block` (accumulator in declaration order). -/
def blockLoop (tk : List Token) : Nat → List Statement → Nat → Except PErr (List Statement × Nat)
  | 0, _, _ => .error .fuel
  | fuel + 1, acc, cur =>
    if !checkP tk .RIGHT_BRACE cur && !isAtEndP tk cur then
      pbind (statement tk fuel cur) (fun s cur => blockLoop tk fuel (acc ++ [s]) cur)
    else
      pbind (consumeP tk .RIGHT_BRACE "Expect '\x7d' after block." cur) (fun _ cur =>
      .ok (acc, cur))

/-- `Parser::block`. -/
def blockP (tk : List Token) : Nat → Nat → Except PErr (List Statement × Nat)
  | 0, _ => .error .fuel
  | fuel + 1, cur => blockLoop tk fuel [] cur

/-- `Parser::if_statement` (the `else` binds to the nearest `if` because this
very call consumes it greedily). -/
def if_statement (tk : List Token) : Nat → Nat → Except PErr (Statement × Nat)
  | 0, _ => .error .fuel
  | fuel + 1, cur =>
    pbind (consumeP tk .LEFT_PAREN "Expect '(' after 'if'." cur) (fun _ cur =>
    pbind (expression tk fuel cur) (fun condition cur =>
    pbind (consumeP tk .RIGHT_PAREN "Expect ')' after if condition." cur) (fun _ cur =>
    pbind (statement tk fuel cur) (fun then_branch cur =>
    pbind (matchAnyP tk [.ELSE] cur) (fun hasElse cur =>
      if hasElse then
        pbind (statement tk fuel cur) (fun else_branch cur =>
        .ok (.If condition then_branch (some else_branch), cur))
      else .ok (.If condition then_branch none, cur))))))

end

/-- `Parser::parse`: parse a single expression from the start. -/
def parse (tk : List Token) (fuel : Nat) : Except PErr (Expr × Nat) :=
  expression tk fuel 0

/-- The `while !is_at_end` loop of `Parser::parse_statements`. -/
def parseStatementsLoop (tk : List Token) : Nat → List Statement → Nat →
    Except PErr (List Statement × Nat)
  | 0, _, _ => .error .fuel
  | fuel + 1, acc, cur =>
    if isAtEndP tk cur then .ok (acc, cur)
    else pbind (statement tk fuel cur) (fun s cur => parseStatementsLoop tk fuel (acc ++ [s]) cur)

/-- `Parser::parse_statements` from the start. -/
def parse_statements (tk : List Token) (fuel : Nat) : Except PErr (List Statement × Nat) :=
  parseStatementsLoop tk fuel [] 0

/-- The token vector the CLI hands to the parser: the lexer's output. -/
def tokensOf (src : String) : List Token := (scan_tokens src).tokens

/-- The `evaluate` pipeline of src/main.rs: lex, parse one expression, evaluate
it in a fresh interpreter; `none` where the CLI exits instead (lexical errors
reported, or a parse error).  Fuel 100 is ample for every source evaluated
here — a shortfall would surface as `none`, failing the concrete theorems. -/
def evalOfSource (src : String) : Option EvalOut :=
  let lx := scan_tokens src
  if lx.errors.isEmpty then
    match parse lx.tokens 100 with
    | .ok (e, _) => some (evaluate e Environment.new).2
    | .error _ => none
  else none

/-- The `run` pipeline of src/main.rs: lex, parse a statement list, run the
statements in order stopping at the first failure (the CLI exits at the first
`Err`); `none` where the CLI exits before running. -/
def runSource (src : String) : Option (InterpState × RunOut) :=
  let lx := scan_tokens src
  if lx.errors.isEmpty then
    match parse_statements lx.tokens 100 with
    | .ok (stmts, _) => some (runList stmts initState)
    | .error _ => none
  else none

/-- The inner run of a `Block`: the statements executed in a state whose
environment is the pushed fresh scope. -/
def blockInner (stmts : List Statement) (st : InterpState) : InterpState × RunOut :=
  runList stmts { st with environment := Environment.with_enclosing st.environment }

/-- Some scope of the chain binds `name`. -/
def boundInChain : Environment → String → Bool
  | .base values, name => scopeContains values name
  | .nest values enclosing, name =>
    scopeContains values name || boundInChain enclosing name

/-- `k` is the index of the first end-of-input token of `tk`. -/
def IsFirstEof (tk : List Token) (k : Nat) : Prop :=
  (∃ t, tk.get? k = some t ∧ t.token_type = .EOF) ∧
  ∀ i t, i < k → tk.get? i = some t → t.token_type ≠ .EOF

/-- A parser step is safe for first-EOF index `k`: it did not perform an
out-of-bounds token access, and on success it leaves the cursor at most `k`. -/
def PSafe (k : Nat) (r : Except PErr (α × Nat)) : Prop :=
  match r with
  | .error .oob => False
  | .error _ => True
  | .ok (_, cur) => cur ≤ k

/-- Every grammar function of the parser is safe at one fuel level, for every
in-range cursor. -/
def AllSafe (tk : List Token) (k fuel : Nat) : Prop :=
  (∀ cur, cur ≤ k → PSafe k (primary tk fuel cur)) ∧
  (∀ cur, cur ≤ k → PSafe k (unary tk fuel cur)) ∧
  (∀ e cur, cur ≤ k → PSafe k (factorLoop tk fuel e cur)) ∧
  (∀ cur, cur ≤ k → PSafe k (factor tk fuel cur)) ∧
  (∀ e cur, cur ≤ k → PSafe k (termLoop tk fuel e cur)) ∧
  (∀ cur, cur ≤ k → PSafe k (term tk fuel cur)) ∧
  (∀ e cur, cur ≤ k → PSafe k (comparisonLoop tk fuel e cur)) ∧
  (∀ cur, cur ≤ k → PSafe k (comparison tk fuel cur)) ∧
  (∀ e cur, cur ≤ k → PSafe k (equalityLoop tk fuel e cur)) ∧
  (∀ cur, cur ≤ k → PSafe k (equality tk fuel cur)) ∧
  (∀ e cur, cur ≤ k → PSafe k (logicalAndLoop tk fuel e cur)) ∧
  (∀ cur, cur ≤ k → PSafe k (logical_and tk fuel cur)) ∧
  (∀ e cur, cur ≤ k → PSafe k (logicalOrLoop tk fuel e cur)) ∧
  (∀ cur, cur ≤ k → PSafe k (logical_or tk fuel cur)) ∧
  (∀ cur, cur ≤ k → PSafe k (assignment tk fuel cur)) ∧
  (∀ cur, cur ≤ k → PSafe k (expression tk fuel cur)) ∧
  (∀ cur, cur ≤ k → PSafe k (statement tk fuel cur)) ∧
  (∀ cur, cur ≤ k → PSafe k (var_statement tk fuel cur)) ∧
  (∀ cur, cur ≤ k → PSafe k (print_statement tk fuel cur)) ∧
  (∀ cur, cur ≤ k → PSafe k (expression_statement tk fuel cur)) ∧
  (∀ acc cur, cur ≤ k → PSafe k (blockLoop tk fuel acc cur)) ∧
  (∀ cur, cur ≤ k → PSafe k (blockP tk fuel cur)) ∧
  (∀ cur, cur ≤ k → PSafe k (if_statement tk fuel cur)) ∧
  (∀ acc cur, cur ≤ k → PSafe k (parseStatementsLoop tk fuel acc cur))

theorem ratFract_eq_zero_num (q : Rat) (h : ratFract q = 0) : q.num = ratTrunc q := by
  have hq : q = (ratTrunc q : Rat) := by
    rw [ratFract, sub_eq_zero] at h
    exact h
  nth_rewrite 1 [hq]
  simp

/-- Claim C7: parsing the token stream of "1 + 2 * 3" yields the tree
(+ 1 (* 2 3)) — multiplication binds tighter than addition — and evaluating
that tree yields Number(7); binary levels build left-nested `Binary` nodes,
as "1 - 2 - 3" parsing as (- (- 1 2) 3) exhibits. -/
theorem c7_precedence :
    parse (tokensOf "1 + 2 * 3") 100 =
      .ok (.Binary (.Literal (.Number 1)) ⟨.PLUS, "+", none, 1⟩
        (.Binary (.Literal (.Number 2)) ⟨.STAR, "*", none, 1⟩ (.Literal (.Number 3))), 5) ∧
    (evaluate
        (.Binary (.Literal (.Number 1)) ⟨.PLUS, "+", none, 1⟩
          (.Binary (.Literal (.Number 2)) ⟨.STAR, "*", none, 1⟩ (.Literal (.Number 3))))
        Environment.new).2 = .ok (.Number 7) ∧
    parse (tokensOf "1 - 2 - 3") 100 =
      .ok (.Binary
        (.Binary (.Literal (.Number 1)) ⟨.MINUS, "-", none, 1⟩ (.Literal (.Number 2)))
        ⟨.MINUS, "-", none, 1⟩ (.Literal (.Number 3)), 5) := by
  refine ⟨?_, ?_, ?_⟩ <;> with_unfolding_all rfl

/-- Claim C6: for a Binary `+` whose operands evaluate to values, two Numbers
add, two Strings concatenate, and any other combination fails with
"Operands must be two numbers or two strings."; through the full pipeline,
"a" + "b" evaluates to String("ab") and 1 + "b" to that error. -/
theorem c6_plus (operator : Token) (l r : Expr) (env env1 env2 : Environment)
    (lv rv : LiteralValue) (hop : operator.token_type = .PLUS)
    (hl : evaluate l env = (env1, .ok lv)) (hr : evaluate r env1 = (env2, .ok rv)) :
    evaluate (.Binary l operator r) env =
      (env2,
        match lv, rv with
        | .Number a, .Number b => .ok (.Number (a + b))
        | .String a, .String b => .ok (.String (a ++ b))
        | _, _ => .err ⟨operator.line, "Operands must be two numbers or two strings."⟩) ∧
    evalOfSource "\"a\" + \"b\"" = some (.ok (.String "ab")) ∧
    evalOfSource "1 + \"b\"" =
      some (.err ⟨1, "Operands must be two numbers or two strings."⟩) := by
  refine ⟨?_, by with_unfolding_all decide, by with_unfolding_all decide⟩
  simp only [evaluate, hl, hr, hop, interpError]
  cases lv <;> cases rv <;> rfl

/-- Witness for C6 at a concrete input. -/
theorem c6_plus_witness :
    evaluate (.Binary (.Literal (.Number 1)) ⟨.PLUS, "+", none, 3⟩ (.Literal (.String "b")))
        Environment.new =
      (Environment.new, .err ⟨3, "Operands must be two numbers or two strings."⟩) :=
  (c6_plus ⟨.PLUS, "+", none, 3⟩ (.Literal (.Number 1)) (.Literal (.String "b"))
    Environment.new Environment.new Environment.new (.Number 1) (.String "b")
    rfl rfl rfl).1

/-- Claim C9: a Number with zero fractional part renders with exactly one
fractional digit in the parse-stage canonical rendering (`Display`) and as a
trimmed integer in the runtime rendering (`as_string`); the two formatting
functions disagree on every such value, and 3 renders as "3.0" and "3". -/
theorem c9_number_rendering (q : Rat) (h : ratFract q = 0) :
    (LiteralValue.Number q).display = toString q.num ++ ".0" ∧
    (LiteralValue.Number q).as_string = toString q.num ∧
    (LiteralValue.Number q).display ≠ (LiteralValue.Number q).as_string ∧
    (LiteralValue.Number 3).display = "3.0" ∧
    (LiteralValue.Number 3).as_string = "3" := by
  have hnum := ratFract_eq_zero_num q h
  have hdisp : (LiteralValue.Number q).display = toString q.num ++ ".0" := by
    simp only [LiteralValue.display, if_pos h, hnum]
  have hstr : (LiteralValue.Number q).as_string = toString q.num := by
    simp only [LiteralValue.as_string, if_pos h, hnum]
  refine ⟨hdisp, hstr, ?_, by with_unfolding_all decide, by with_unfolding_all decide⟩
  rw [hdisp, hstr]
  intro heq
  have hlen := congrArg String.length heq
  rw [String.length_append] at hlen
  simp at hlen
  exact absurd hlen (by decide)

/-- Claim C1: a Logical expression evaluates its left operand first; `and`
yields the left value (right operand unevaluated) when it is not truthy and
otherwise evaluates and yields the right operand; `or` is symmetric.  Through
the pipeline, "false and (1/0)" evaluates to Boolean(false) with no
RuntimeError.  (Evaluation of `Expr::Logical` is modelled from spec §4.4
because the source's `evaluate` match lacks the arm.) -/
theorem c1_logical_short_circuit :
    (∀ (l r : Expr) (operator : Token) (env env1 : Environment) (lv : LiteralValue),
      operator.token_type = .AND →
      evaluate l env = (env1, .ok lv) →
      (is_truthy lv = false → evaluate (.Logical l operator r) env = (env1, .ok lv)) ∧
      (is_truthy lv = true → evaluate (.Logical l operator r) env = evaluate r env1)) ∧
    (∀ (l r : Expr) (operator : Token) (env env1 : Environment) (lv : LiteralValue),
      operator.token_type = .OR →
      evaluate l env = (env1, .ok lv) →
      (is_truthy lv = true → evaluate (.Logical l operator r) env = (env1, .ok lv)) ∧
      (is_truthy lv = false → evaluate (.Logical l operator r) env = evaluate r env1)) ∧
    evalOfSource "false and (1/0)" = some (.ok (.Boolean false)) := by
  refine ⟨fun l r operator env env1 lv hop hl => ⟨fun ht => ?_, fun ht => ?_⟩,
    fun l r operator env env1 lv hop hl => ⟨fun ht => ?_, fun ht => ?_⟩,
    by with_unfolding_all decide⟩ <;>
  simp only [evaluate, hl, hop, ht, Bool.false_eq_true, if_false, if_true, Bool.true_eq_false]

/-- Witness for C1 at a concrete input. -/
theorem c1_logical_short_circuit_witness :
    evaluate (.Logical (.Literal (.Boolean false)) ⟨.AND, "and", none, 1⟩ (.Literal .Nil))
        Environment.new = (Environment.new, .ok (.Boolean false)) :=
  (c1_logical_short_circuit.1 (.Literal (.Boolean false)) (.Literal .Nil)
    ⟨.AND, "and", none, 1⟩ Environment.new Environment.new (.Boolean false) rfl rfl).1 rfl

/-- Claim C2: an If statement evaluates its condition; when truthy it executes
the then-branch, otherwise the else-branch when present, and otherwise does
nothing.  Pipeline checks: "if (true) print 1; else print 2;" prints 1,
"if (false) print 1; else print 2;" prints 2, and "if (false) print 1;"
prints nothing.  (Execution of `Statement::If` is modelled from spec §4.5
because the source's `run` match lacks the arm.) -/
theorem c2_if_semantics :
    (∀ (condition : Expr) (then_branch : Statement) (else_branch : Option Statement)
      (st : InterpState) (env1 : Environment) (v : LiteralValue),
      evaluate condition st.environment = (env1, .ok v) →
      (is_truthy v = true →
        run (.If condition then_branch else_branch) st =
          run then_branch { st with environment := env1 }) ∧
      (is_truthy v = false →
        (∀ eb, else_branch = some eb →
          run (.If condition then_branch else_branch) st =
            run eb { st with environment := env1 }) ∧
        (else_branch = none →
          run (.If condition then_branch else_branch) st =
            ({ st with environment := env1 }, .ok)))) ∧
    (runSource "if (true) print 1; else print 2;").map (fun p => (p.1.output, p.2)) =
      some (["1"], .ok) ∧
    (runSource "if (false) print 1; else print 2;").map (fun p => (p.1.output, p.2)) =
      some (["2"], .ok) ∧
    (runSource "if (false) print 1;").map (fun p => (p.1.output, p.2)) =
      some ([], .ok) := by
  refine ⟨fun condition then_branch else_branch st env1 v hc => ?_,
    by with_unfolding_all decide, by with_unfolding_all decide, by with_unfolding_all decide⟩
  refine ⟨fun ht => ?_, fun ht => ⟨fun eb heb => ?_, fun heb => ?_⟩⟩ <;>
    subst_eqs <;>
    simp only [run, hc, ht, Bool.false_eq_true, if_false, if_true, Bool.true_eq_false]

/-- Witness for C2 at a concrete input. -/
theorem c2_if_semantics_witness :
    run (.If (.Literal (.Boolean true)) (.Print (.Literal (.Number 1))) none) initState =
      run (.Print (.Literal (.Number 1))) { initState with environment := Environment.new } :=
  (c2_if_semantics.1 (.Literal (.Boolean true)) (.Print (.Literal (.Number 1))) none
    initState Environment.new (.Boolean true) rfl).1 rfl

theorem assign_unbound (env : Environment) (name : String) (value : LiteralValue)
    (h : boundInChain env name = false) :
    env.assign name value = .error ⟨0, "Undefined variable '" ++ name ++ "'"⟩ := by
  induction env with
  | base values =>
    simp only [boundInChain] at h
    simp [Environment.assign, h]
  | nest values enclosing ih =>
    simp only [boundInChain, Bool.or_eq_false_iff] at h
    simp [Environment.assign, h.1, ih h.2]

/-- Claim C5: `Environment::assign` searches outward and mutates the first
scope already binding the name; when no scope binds it, it fails with
`UndefinedVariable` (line 0, message `Undefined variable '<name>'`) and
creates no binding; running `y = 5;` with no prior declaration yields a
RuntimeError with message "Undefined variable 'y'". -/
theorem c5_assign_semantics :
    (∀ (env : Environment) (name : String) (value : LiteralValue),
      boundInChain env name = false →
      env.assign name value = .error ⟨0, "Undefined variable '" ++ name ++ "'"⟩) ∧
    (∀ (values : Scope) (enclosing : Environment) (name : String) (value : LiteralValue),
      scopeContains values name = true →
      Environment.assign (.nest values enclosing) name value =
        .ok (.nest (scopeInsert values name value) enclosing)) ∧
    (∀ (values : Scope) (enclosing : Environment) (name : String) (value : LiteralValue),
      scopeContains values name = false →
      Environment.assign (.nest values enclosing) name value =
        (match enclosing.assign name value with
         | .ok e2 => .ok (.nest values e2)
         | .error err => .error err)) ∧
    (runSource "y = 5;").map (fun p => p.2) = some (.err ⟨0, "Undefined variable 'y'"⟩) := by
  refine ⟨fun env name value h => assign_unbound env name value h,
    fun values enclosing name value h => ?_,
    fun values enclosing name value h => ?_,
    by with_unfolding_all decide⟩
  · simp [Environment.assign, h]
  · simp [Environment.assign, h]

/-- Witness for C5 at a concrete input. -/
theorem c5_assign_semantics_witness :
    Environment.new.assign "y" (.Number 5) = .error ⟨0, "Undefined variable 'y'"⟩ :=
  c5_assign_semantics.1 Environment.new "y" (.Number 5) (by with_unfolding_all decide)

/-- Claim C4 is falsified at this input: the `UndefinedVariable` error an
assignment propagates carries line 0 (hard-coded in `Environment::assign`),
not the line (1) of the name token at which the assignment arose. -/
theorem c4_counterexample :
    evaluate (.Assignment ⟨.IDENTIFIER, "y", none, 1⟩ (.Literal (.Number 5))) Environment.new =
      (Environment.new, .err ⟨0, "Undefined variable 'y'"⟩) ∧
    (⟨.IDENTIFIER, "y", none, 1⟩ : Token).line ≠ 0 := by
  exact ⟨by with_unfolding_all rfl, by decide⟩

/-- Claim C4 as amended: runtime errors the interpreter builds through its
`error` helper carry the operator token's line (exhibited for unary `-` on a
non-number), and `Assignment(name, value-expr)` evaluates the value, assigns
it via the environment and on success yields the assigned value — but the
`UndefinedVariable` failure is propagated exactly as `Environment::assign`
built it, with line 0 rather than the token's line. -/
theorem c4_amended :
    (∀ (operator : Token) (r : Expr) (env env1 : Environment) (v : LiteralValue),
      operator.token_type = .MINUS →
      evaluate r env = (env1, .ok v) →
      (∀ n, v ≠ .Number n) →
      evaluate (.Unary operator r) env =
        (env1, .err ⟨operator.line, "Operand must be a number."⟩)) ∧
    (∀ (name : Token) (e : Expr) (env env1 env2 : Environment) (v : LiteralValue),
      evaluate e env = (env1, .ok v) →
      env1.assign name.lexeme v = .ok env2 →
      evaluate (.Assignment name e) env = (env2, .ok v)) ∧
    (∀ (name : Token) (e : Expr) (env env1 : Environment) (v : LiteralValue),
      evaluate e env = (env1, .ok v) →
      boundInChain env1 name.lexeme = false →
      evaluate (.Assignment name e) env =
        (env1, .err ⟨0, "Undefined variable '" ++ name.lexeme ++ "'"⟩)) := by
  refine ⟨fun operator r env env1 v hop hr hv => ?_,
    fun name e env env1 env2 v he ha => ?_,
    fun name e env env1 v he hub => ?_⟩
  · cases v with
    | Number n => exact absurd rfl (hv n)
    | String s => simp only [evaluate, hr, hop, expect_number, interpError]
    | Boolean b => simp only [evaluate, hr, hop, expect_number, interpError]
    | Nil => simp only [evaluate, hr, hop, expect_number, interpError]
  · simp only [evaluate, he, ha]
  · simp only [evaluate, he, assign_unbound env1 name.lexeme v hub]

/-- Witness for C4's amended claim at a concrete input. -/
theorem c4_amended_witness :
    evaluate (.Assignment ⟨.IDENTIFIER, "z", none, 4⟩ (.Literal (.Number 2))) Environment.new =
      (Environment.new, .err ⟨0, "Undefined variable 'z'"⟩) :=
  c4_amended.2.2 ⟨.IDENTIFIER, "z", none, 4⟩ (.Literal (.Number 2)) Environment.new
    Environment.new (.Number 2) rfl (by with_unfolding_all decide)

/-- Witness for C9 at the concrete value 3. -/
theorem c9_number_rendering_witness :
    (LiteralValue.Number 3).display = toString (3 : Rat).num ++ ".0" ∧
    (LiteralValue.Number 3).as_string = toString (3 : Rat).num ∧
    (LiteralValue.Number 3).display ≠ (LiteralValue.Number 3).as_string ∧
    (LiteralValue.Number 3).display = "3.0" ∧
    (LiteralValue.Number 3).as_string = "3" :=
  c9_number_rendering 3 (by with_unfolding_all decide)

theorem depth_pos (env : Environment) : 1 ≤ env.depth := by
  cases env <;> simp [Environment.depth]

theorem define_depth (env : Environment) (name : String) (value : LiteralValue) :
    (env.define name value).depth = env.depth := by
  cases env <;> rfl

theorem assign_depth (env : Environment) (name : String) (value : LiteralValue) :
    ∀ env2, env.assign name value = .ok env2 → env2.depth = env.depth := by
  induction env with
  | base values =>
    intro env2 h
    simp only [Environment.assign] at h
    split at h
    · cases h; rfl
    · cases h
  | nest values enclosing ih =>
    intro env2 h
    simp only [Environment.assign] at h
    split at h
    · cases h; rfl
    · cases ha : enclosing.assign name value with
      | ok e2 =>
        rw [ha] at h
        cases h
        simp [Environment.depth, ih e2 ha]
      | error err =>
        rw [ha] at h
        cases h

theorem evaluate_depth : ∀ (e : Expr) (env : Environment),
    ((evaluate e env).1).depth = env.depth := by
  intro e
  induction e with
  | Binary l operator r ihl ihr =>
    intro env
    have hl := ihl env
    rcases hevl : evaluate l env with ⟨env1, out1⟩
    rw [hevl] at hl
    cases out1 with
    | err e => simp only [evaluate, hevl]; exact hl
    | panicked => simp only [evaluate, hevl]; exact hl
    | ok lv =>
      have hr := ihr env1
      rcases hevr : evaluate r env1 with ⟨env2, out2⟩
      rw [hevr] at hr
      cases out2 with
      | err e => simp only [evaluate, hevl, hevr]; exact hr.trans hl
      | panicked => simp only [evaluate, hevl, hevr]; exact hr.trans hl
      | ok rv =>
        simp only [evaluate, hevl, hevr]
        split <;> (try split) <;> exact hr.trans hl
  | Literal v => intro env; rfl
  | Grouping inner ih => intro env; exact ih env
  | Unary operator right ih =>
    intro env
    have hl := ih env
    rcases hev : evaluate right env with ⟨env1, out⟩
    rw [hev] at hl
    cases out with
    | err e => simp only [evaluate, hev]; exact hl
    | panicked => simp only [evaluate, hev]; exact hl
    | ok v =>
      simp only [evaluate, hev]
      split <;> (try split) <;> exact hl
  | Variable name =>
    intro env
    simp only [evaluate]
    split <;> rfl
  | Assignment name value ih =>
    intro env
    have hl := ih env
    rcases hev : evaluate value env with ⟨env1, out⟩
    rw [hev] at hl
    cases out with
    | err e => simp only [evaluate, hev]; exact hl
    | panicked => simp only [evaluate, hev]; exact hl
    | ok v =>
      simp only [evaluate, hev]
      cases ha : env1.assign name.lexeme v with
      | ok env2 => exact (assign_depth env1 name.lexeme v env2 ha).trans hl
      | error e => exact hl
  | Logical l operator r ihl ihr =>
    intro env
    have hl := ihl env
    rcases hevl : evaluate l env with ⟨env1, out1⟩
    rw [hevl] at hl
    cases out1 with
    | err e => simp only [evaluate, hevl]; exact hl
    | panicked => simp only [evaluate, hevl]; exact hl
    | ok lv =>
      simp only [evaluate, hevl]
      split
      · split
        · exact (ihr env1).trans hl
        · exact hl
      · split
        · exact hl
        · exact (ihr env1).trans hl
      · exact hl

mutual

theorem run_depth (s : Statement) (st : InterpState) :
    (run s st).2 ≠ .panicked →
    ((run s st).1).environment.depth = st.environment.depth := by
  cases s with
  | Print e =>
    intro _
    have hd := evaluate_depth e st.environment
    rcases hev : evaluate e st.environment with ⟨env1, out⟩
    rw [hev] at hd
    simp only [run, hev]
    cases out <;> exact hd
  | Expression e =>
    intro _
    have hd := evaluate_depth e st.environment
    rcases hev : evaluate e st.environment with ⟨env1, out⟩
    rw [hev] at hd
    simp only [run, hev]
    cases out <;> exact hd
  | Var name init =>
    intro _
    cases init with
    | none => simpa only [run] using define_depth st.environment name.lexeme LiteralValue.Nil
    | some e =>
      have hd := evaluate_depth e st.environment
      rcases hev : evaluate e st.environment with ⟨env1, out⟩
      rw [hev] at hd
      simp only [run, hev]
      cases out with
      | ok v => exact (define_depth env1 name.lexeme v).trans hd
      | err e => exact hd
      | panicked => exact hd
  | Block stmts =>
    intro h
    rcases hrl : runList stmts
        { st with environment := Environment.with_enclosing st.environment } with ⟨st2, r⟩
    have hd : st2.environment.depth = 1 + st.environment.depth := by
      have h2 : (runList stmts
          { st with environment := Environment.with_enclosing st.environment }).2
            ≠ .panicked := by
        intro hcon
        apply h
        simp only [run, hrl]
        rw [hrl] at hcon
        simp only at hcon
        rw [hcon]
      have := runList_depth stmts
        { st with environment := Environment.with_enclosing st.environment } h2
      rw [hrl] at this
      simpa [Environment.with_enclosing, Environment.depth] using this
    cases r with
    | panicked =>
      exact absurd (by simp only [run, hrl]) h
    | ok =>
      cases henv : st2.environment with
      | base values =>
        rw [henv] at hd
        simp only [Environment.depth] at hd
        have := depth_pos st.environment
        omega
      | nest values encl =>
        rw [henv] at hd
        simp only [run, hrl, henv, Environment.into_enclosing]
        simp only [Environment.depth] at hd
        omega
    | err e =>
      cases henv : st2.environment with
      | base values =>
        rw [henv] at hd
        simp only [Environment.depth] at hd
        have := depth_pos st.environment
        omega
      | nest values encl =>
        rw [henv] at hd
        simp only [run, hrl, henv, Environment.into_enclosing]
        simp only [Environment.depth] at hd
        omega
  | If condition then_branch else_branch =>
    intro h
    have hd := evaluate_depth condition st.environment
    rcases hev : evaluate condition st.environment with ⟨env1, out⟩
    rw [hev] at hd
    cases out with
    | err e => simp only [run, hev]; exact hd
    | panicked => simp only [run, hev]; exact hd
    | ok v =>
      simp only [run, hev] at h ⊢
      by_cases ht : is_truthy v = true
      · rw [if_pos ht] at h ⊢
        exact (run_depth then_branch { st with environment := env1 } h).trans hd
      · rw [if_neg ht] at h ⊢
        cases else_branch with
        | some eb => exact (run_depth eb { st with environment := env1 } h).trans hd
        | none => exact hd

theorem runList_depth (ss : List Statement) (st : InterpState) :
    (runList ss st).2 ≠ .panicked →
    ((runList ss st).1).environment.depth = st.environment.depth := by
  cases ss with
  | nil => intro _; rfl
  | cons s rest =>
    intro h
    rcases hr : run s st with ⟨st2, r⟩
    simp only [runList, hr] at h ⊢
    cases r with
    | ok =>
      have h1 : (run s st).2 ≠ .panicked := by rw [hr]; simp
      have := run_depth s st h1
      rw [hr] at this
      exact (runList_depth rest st2 h).trans this
    | err e =>
      have h1 : (run s st).2 ≠ .panicked := by rw [hr]; simp
      have := run_depth s st h1
      rw [hr] at this
      exact this
    | panicked => exact absurd rfl h

end

/-- Claim C3: a Block pushes a fresh empty innermost scope, runs its
statements in order, and pops exactly that scope afterward — also when the
statements end in an error, which is then propagated; the popped chain is at
the original depth.  After `var x = 1; { var x = 2; }` the name x resolves to
Number(1): the inner declaration shadowed but did not escape its block. -/
theorem c3_block_scoping :
    (∀ (stmts : List Statement) (st : InterpState),
      { st with environment := Environment.with_enclosing st.environment }.environment
        = .nest [] st.environment ∧
      ((blockInner stmts st).2 ≠ .panicked →
        ∃ vals encl,
          (blockInner stmts st).1.environment = .nest vals encl ∧
          run (.Block stmts) st =
            ({ (blockInner stmts st).1 with environment := encl }, (blockInner stmts st).2) ∧
          encl.depth = st.environment.depth)) ∧
    (runSource "var x = 1; { var x = 2; }").map
        (fun p => (p.1.environment.get "x", p.2)) = some (some (.Number 1), .ok) := by
  refine ⟨fun stmts st => ⟨rfl, fun h => ?_⟩, by with_unfolding_all decide⟩
  have hd : (blockInner stmts st).1.environment.depth = 1 + st.environment.depth := by
    have := runList_depth stmts
      { st with environment := Environment.with_enclosing st.environment } h
    simpa [blockInner, Environment.with_enclosing, Environment.depth] using this
  rcases henv : (blockInner stmts st).1.environment with values | ⟨values, encl⟩
  · rw [henv] at hd
    simp only [Environment.depth] at hd
    have := depth_pos st.environment
    omega
  · refine ⟨values, encl, rfl, ?_, ?_⟩
    · rcases hout : blockInner stmts st with ⟨st2, r⟩
      rw [hout] at h henv
      simp only at h henv
      cases r with
      | panicked => exact absurd rfl h
      | ok => simp only [run, show runList stmts
          { st with environment := Environment.with_enclosing st.environment } = (st2, .ok)
            from hout, henv, Environment.into_enclosing]
      | err e => simp only [run, show runList stmts
          { st with environment := Environment.with_enclosing st.environment } = (st2, .err e)
            from hout, henv, Environment.into_enclosing]
    · rw [henv] at hd
      simp only [Environment.depth] at hd
      omega

/-- Witness for C3 at a concrete input. -/
theorem c3_block_scoping_witness :
    ∃ vals encl,
      (blockInner [] initState).1.environment = .nest vals encl ∧
      run (.Block []) initState =
        ({ (blockInner [] initState).1 with environment := encl }, (blockInner [] initState).2) ∧
      encl.depth = initState.environment.depth :=
  ((c3_block_scoping.1 [] initState).2 (by with_unfolding_all decide))

theorem commentLoop_tokens : ∀ (f : Nat) (lx : Lexer),
    (Lexer.commentLoop f lx).tokens = lx.tokens := by
  intro f
  induction f with
  | zero => intro lx; rfl
  | succ f ih =>
    intro lx
    simp only [Lexer.commentLoop]
    split
    · exact ih _
    · rfl

theorem stringLoop_tokens : ∀ (f : Nat) (lx : Lexer),
    (Lexer.stringLoop f lx).tokens = lx.tokens := by
  intro f
  induction f with
  | zero => intro lx; rfl
  | succ f ih =>
    intro lx
    simp only [Lexer.stringLoop]
    split
    · split <;> exact ih _
    · rfl

theorem consume_digits_tokens : ∀ (f : Nat) (lx : Lexer),
    (Lexer.consume_digits f lx).tokens = lx.tokens := by
  intro f
  induction f with
  | zero => intro lx; rfl
  | succ f ih =>
    intro lx
    simp only [Lexer.consume_digits]
    split
    · exact ih _
    · rfl

theorem idLoop_tokens : ∀ (f : Nat) (lx : Lexer),
    (Lexer.idLoop f lx).tokens = lx.tokens := by
  intro f
  induction f with
  | zero => intro lx; rfl
  | succ f ih =>
    intro lx
    simp only [Lexer.idLoop]
    split
    · exact ih _
    · rfl

theorem add_token_eof_free (lx : Lexer) (tt : TokenType) (lit : Option String)
    (htt : tt ≠ .EOF) (hinv : ∀ t ∈ lx.tokens, t.token_type ≠ .EOF) :
    ∀ t ∈ (lx.add_token tt lit).tokens, t.token_type ≠ .EOF := by
  intro t ht
  simp only [Lexer.add_token, List.mem_append, List.mem_singleton] at ht
  rcases ht with h | h
  · exact hinv t h
  · subst h; simpa using htt

theorem keywordType_ne_eof (s : String) : (keywordType s).getD .IDENTIFIER ≠ .EOF := by
  unfold keywordType
  split <;> simp

theorem error_eof_free (lx : Lexer) (line : Nat) (msg : String)
    (hinv : ∀ t ∈ lx.tokens, t.token_type ≠ .EOF) :
    ∀ t ∈ (lx.error line msg).tokens, t.token_type ≠ .EOF := hinv

theorem match_char_tokens (lx : Lexer) (c : Char) :
    (lx.match_char c).2.tokens = lx.tokens := by
  simp only [Lexer.match_char]
  split <;> rfl

theorem scan_slash_eof_free (lx : Lexer)
    (hinv : ∀ t ∈ lx.tokens, t.token_type ≠ .EOF) :
    ∀ t ∈ lx.scan_slash.tokens, t.token_type ≠ .EOF := by
  simp only [Lexer.scan_slash]
  rcases hmc : lx.match_char '/' with ⟨matched, lx1⟩
  have hlx1 : lx1.tokens = lx.tokens := by
    rw [show lx1 = (lx.match_char '/').2 from by rw [hmc]]
    exact match_char_tokens lx '/'
  split
  · intro t ht
    rw [commentLoop_tokens, hlx1] at ht
    exact hinv t ht
  · refine add_token_eof_free lx1 .SLASH none (by simp) ?_
    rw [hlx1]; exact hinv

theorem scan_comparison_eof_free (lx : Lexer) (single double : TokenType)
    (hs : single ≠ .EOF) (hd : double ≠ .EOF)
    (hinv : ∀ t ∈ lx.tokens, t.token_type ≠ .EOF) :
    ∀ t ∈ (lx.scan_comparison single double).tokens, t.token_type ≠ .EOF := by
  simp only [Lexer.scan_comparison]
  rcases hmc : lx.match_char '=' with ⟨matched, lx1⟩
  have hlx1 : lx1.tokens = lx.tokens := by
    rw [show lx1 = (lx.match_char '=').2 from by rw [hmc]]
    exact match_char_tokens lx '='
  refine add_token_eof_free lx1 _ none (by cases matched <;> simpa) ?_
  rw [hlx1]; exact hinv

theorem string_eof_free (lx : Lexer)
    (hinv : ∀ t ∈ lx.tokens, t.token_type ≠ .EOF) :
    ∀ t ∈ lx.string.tokens, t.token_type ≠ .EOF := by
  simp only [Lexer.string]
  split
  · intro t ht
    simp only [Lexer.error] at ht
    rw [stringLoop_tokens] at ht
    exact hinv t ht
  · refine add_token_eof_free _ .STRING _ (by simp) ?_
    intro t ht
    simp only [Lexer.advance] at ht
    rw [stringLoop_tokens] at ht
    exact hinv t ht

set_option maxHeartbeats 2000000 in
theorem number_eof_free (lx : Lexer)
    (hinv : ∀ t ∈ lx.tokens, t.token_type ≠ .EOF) :
    ∀ t ∈ lx.number.tokens, t.token_type ≠ .EOF := by
  simp only [Lexer.number]
  split
  · refine add_token_eof_free _ .NUMBER _ (by simp) ?_
    intro t ht
    split at ht
    · rw [consume_digits_tokens] at ht
      have ht2 : t ∈ (Lexer.consume_digits (lx.source.length + 1) lx).tokens := ht
      rw [consume_digits_tokens] at ht2
      exact hinv t ht2
    · rw [consume_digits_tokens] at ht
      exact hinv t ht
  · intro t ht
    have ht1 : t ∈ (if (Lexer.consume_digits (lx.source.length + 1) lx).peek == '.' &&
          (Lexer.consume_digits (lx.source.length + 1) lx).peek_next.isDigit then
          Lexer.consume_digits
            ((Lexer.consume_digits (lx.source.length + 1) lx).source.length + 1)
            { Lexer.consume_digits (lx.source.length + 1) lx with
                current := (Lexer.consume_digits (lx.source.length + 1) lx).current + 1 }
        else Lexer.consume_digits (lx.source.length + 1) lx).tokens := ht
    split at ht1
    · rw [consume_digits_tokens] at ht1
      have ht2 : t ∈ (Lexer.consume_digits (lx.source.length + 1) lx).tokens := ht1
      rw [consume_digits_tokens] at ht2
      exact hinv t ht2
    · rw [consume_digits_tokens] at ht1
      exact hinv t ht1

theorem identifier_eof_free (lx : Lexer)
    (hinv : ∀ t ∈ lx.tokens, t.token_type ≠ .EOF) :
    ∀ t ∈ lx.identifier.tokens, t.token_type ≠ .EOF := by
  simp only [Lexer.identifier]
  refine add_token_eof_free _ _ none (keywordType_ne_eof _) ?_
  intro t ht
  rw [idLoop_tokens] at ht
  exact hinv t ht

theorem scan_token_eof_free (lx : Lexer)
    (hinv : ∀ t ∈ lx.tokens, t.token_type ≠ .EOF) :
    ∀ t ∈ (Lexer.scan_token lx).tokens, t.token_type ≠ .EOF := by
  have hinv2 : ∀ t ∈ ({ lx with current := lx.current + 1 } : Lexer).tokens,
      t.token_type ≠ .EOF := hinv
  simp only [Lexer.scan_token, Lexer.advance]
  split
  · exact add_token_eof_free _ _ _ (by simp) hinv2
  · exact add_token_eof_free _ _ _ (by simp) hinv2
  · exact add_token_eof_free _ _ _ (by simp) hinv2
  · exact add_token_eof_free _ _ _ (by simp) hinv2
  · exact add_token_eof_free _ _ _ (by simp) hinv2
  · exact add_token_eof_free _ _ _ (by simp) hinv2
  · exact add_token_eof_free _ _ _ (by simp) hinv2
  · exact add_token_eof_free _ _ _ (by simp) hinv2
  · exact add_token_eof_free _ _ _ (by simp) hinv2
  · exact add_token_eof_free _ _ _ (by simp) hinv2
  · exact scan_slash_eof_free _ hinv2
  · exact scan_comparison_eof_free _ _ _ (by simp) (by simp) hinv2
  · exact scan_comparison_eof_free _ _ _ (by simp) (by simp) hinv2
  · exact scan_comparison_eof_free _ _ _ (by simp) (by simp) hinv2
  · exact scan_comparison_eof_free _ _ _ (by simp) (by simp) hinv2
  · exact string_eof_free _ hinv2
  · exact hinv2
  · exact hinv2
  · exact hinv2
  · exact hinv2
  · split
    · exact number_eof_free _ hinv2
    · split
      · exact identifier_eof_free _ hinv2
      · exact error_eof_free _ _ _ hinv2

theorem scanLoop_eof_free : ∀ (f : Nat) (lx : Lexer),
    (∀ t ∈ lx.tokens, t.token_type ≠ .EOF) →
    ∀ t ∈ (Lexer.scanLoop f lx).tokens, t.token_type ≠ .EOF := by
  intro f
  induction f with
  | zero => intro lx hinv; exact hinv
  | succ f ih =>
    intro lx hinv
    simp only [Lexer.scanLoop]
    split
    · exact hinv
    · exact ih _ (scan_token_eof_free _ hinv)

/-- Claim C8: for every source text the lexer's output ends with exactly one
end-of-input token, whose line is the line counter's final value (no token
produced by the scan loop is an EOF token); lexing `"abc` (an unterminated
string) produces exactly one lexical error, "Unterminated string.", yields no
STRING token, and still appends the end-of-input token. -/
theorem c8_lexer_eof :
    (∀ src : String, ∃ pre : List Token,
      tokensOf src = pre ++ [⟨.EOF, "", none, (scan_tokens src).line⟩] ∧
      ∀ t ∈ pre, t.token_type ≠ .EOF) ∧
    (scan_tokens "\"abc").tokens = [⟨.EOF, "", none, 1⟩] ∧
    (scan_tokens "\"abc").errors = [(1, "Unterminated string.")] := by
  refine ⟨fun src => ?_, by with_unfolding_all decide, by with_unfolding_all decide⟩
  refine ⟨(Lexer.scanLoop ((Lexer.new src).source.length + 1) (Lexer.new src)).tokens, rfl, ?_⟩
  exact scanLoop_eof_free _ _ (by intro t ht; simp [Lexer.new] at ht)

/-- Witness for C8 at a concrete source text. -/
theorem c8_lexer_eof_witness :
    ∃ pre : List Token,
      tokensOf "x" = pre ++ [⟨.EOF, "", none, (scan_tokens "x").line⟩] ∧
      ∀ t ∈ pre, t.token_type ≠ .EOF :=
  c8_lexer_eof.1 "x"

theorem isFirstEof_lt {tk : List Token} {k : Nat} (hk : IsFirstEof tk k) : k < tk.length := by
  obtain ⟨⟨t, ht, _⟩, _⟩ := hk
  obtain ⟨h, _⟩ := List.get?_eq_some.mp ht
  exact h

theorem get_some {tk : List Token} {k cur : Nat} (hk : IsFirstEof tk k) (hc : cur ≤ k) :
    ∃ t, tk.get? cur = some t := by
  have hlen : cur < tk.length := lt_of_le_of_lt hc (isFirstEof_lt hk)
  exact ⟨tk.get ⟨cur, hlen⟩, List.get?_eq_get hlen⟩

theorem isAtEnd_false_lt {tk : List Token} {k cur : Nat} (hk : IsFirstEof tk k)
    (hc : cur ≤ k) (hend : isAtEndP tk cur = false) : cur < k := by
  rcases Nat.lt_or_ge cur k with h | h
  · exact h
  · have hek : cur = k := le_antisymm hc h
    subst hek
    obtain ⟨⟨te, hte, htyp⟩, _⟩ := hk
    unfold isAtEndP at hend
    rw [hte] at hend
    simp [htyp] at hend

theorem checkP_true_not_end {tk : List Token} {tt : TokenType} {cur : Nat}
    (h : checkP tk tt cur = true) : isAtEndP tk cur = false := by
  simp only [checkP, Bool.and_eq_true, Bool.not_eq_true'] at h
  exact h.1

theorem isAtEnd_false_of_get {tk : List Token} {cur : Nat} {t : Token}
    (hget : tk.get? cur = some t) (h : t.token_type ≠ .EOF) :
    isAtEndP tk cur = false := by
  unfold isAtEndP
  rw [hget]
  exact beq_eq_false_iff_ne.mpr h

theorem peekP_ok {tk : List Token} {k cur : Nat} (hk : IsFirstEof tk k) (hc : cur ≤ k) :
    ∃ t, peekP tk cur = .ok t ∧ tk.get? cur = some t := by
  obtain ⟨t, ht⟩ := get_some hk hc
  exact ⟨t, by unfold peekP; rw [ht], ht⟩

theorem previousP_ok {tk : List Token} {k cur : Nat} (hk : IsFirstEof tk k)
    (h1 : 1 ≤ cur) (hc : cur ≤ k) : ∃ t, previousP tk cur = .ok t := by
  obtain ⟨t, ht⟩ := get_some hk (le_trans (Nat.sub_le cur 1) hc)
  refine ⟨t, ?_⟩
  unfold previousP
  rw [if_neg (show ¬cur = 0 by omega), ht]

theorem advanceP_ok {tk : List Token} {k cur : Nat} (hk : IsFirstEof tk k)
    (hc : cur ≤ k) (hend : isAtEndP tk cur = false) :
    ∃ t, advanceP tk cur = .ok (t, cur + 1) ∧ cur + 1 ≤ k := by
  have hlt : cur < k := isAtEnd_false_lt hk hc hend
  obtain ⟨t, ht⟩ := get_some hk hc
  refine ⟨t, ?_, by omega⟩
  unfold advanceP
  rw [hend]
  simp only [Bool.false_eq_true, if_false]
  unfold previousP
  rw [if_neg (show ¬cur + 1 = 0 by omega)]
  rw [show cur + 1 - 1 = cur from rfl, ht]

theorem psafe_ok {α : Type _} {k c : Nat} (a : α) (h : c ≤ k) :
    PSafe k (.ok (a, c)) := h

theorem pbind_psafe {α β : Type _} {k : Nat} {m : Except PErr (α × Nat)}
    {f : α → Nat → Except PErr (β × Nat)}
    (hm : PSafe k m) (hf : ∀ a c, c ≤ k → PSafe k (f a c)) : PSafe k (pbind m f) := by
  cases m with
  | error e =>
    cases e with
    | oob => simp [PSafe] at hm
    | fuel => simp [pbind, PSafe]
    | perr pe => simp [pbind, PSafe]
  | ok p =>
    obtain ⟨a, c⟩ := p
    exact hf a c hm

theorem pthrow_psafe {α : Type _} {tk : List Token} {k cur : Nat} {msg : String}
    (hk : IsFirstEof tk k) (hc : cur ≤ k) :
    PSafe k (pthrow tk msg cur : Except PErr (α × Nat)) := by
  obtain ⟨t, hpk, _⟩ := peekP_ok hk hc
  simp [pthrow, mkErrorP, hpk, PSafe]

theorem consumeP_psafe {tk : List Token} {k cur : Nat} {tt : TokenType} {msg : String}
    (hk : IsFirstEof tk k) (hc : cur ≤ k) : PSafe k (consumeP tk tt msg cur) := by
  unfold consumeP
  by_cases hcheck : checkP tk tt cur = true
  · rw [if_pos hcheck]
    obtain ⟨t, hadv, hle⟩ := advanceP_ok hk hc (checkP_true_not_end hcheck)
    rw [hadv]
    exact hle
  · rw [if_neg hcheck]
    exact pthrow_psafe hk hc

theorem pfinish_psafe {tk : List Token} {k cur : Nat} (hk : IsFirstEof tk k)
    (hc : cur ≤ k) (hend : isAtEndP tk cur = false) (e : Expr) :
    PSafe k (pfinish tk e cur) := by
  obtain ⟨t, hadv, hle⟩ := advanceP_ok hk hc hend
  simp only [pfinish, hadv, pbind]
  exact hle

theorem matchAnyP_ok {tk : List Token} {k cur : Nat} (hk : IsFirstEof tk k)
    (tts : List TokenType) (hc : cur ≤ k) :
    ∃ b cur2, matchAnyP tk tts cur = .ok (b, cur2) ∧ cur2 ≤ k ∧
      (b = false → cur2 = cur) ∧ (b = true → cur2 = cur + 1 ∧ 1 ≤ cur2) := by
  unfold matchAnyP
  by_cases hany : tts.any (fun t => checkP tk t cur) = true
  · rw [if_pos hany]
    obtain ⟨t, -, hcheck⟩ := List.any_eq_true.mp hany
    obtain ⟨tok, hadv, hle⟩ := advanceP_ok hk hc (checkP_true_not_end hcheck)
    refine ⟨true, cur + 1, ?_, hle, by simp, fun _ => ⟨rfl, by omega⟩⟩
    simp [pbind, hadv]
  · rw [if_neg hany]
    exact ⟨false, cur, rfl, hc, fun _ => rfl, by simp⟩

theorem if_bool_true {α : Type _} {a b : α} : (if (true : Bool) then a else b) = a := rfl

theorem if_bool_false {α : Type _} {a b : α} : (if (false : Bool) then a else b) = b := rfl

theorem allSafe (tk : List Token) (k : Nat) (hk : IsFirstEof tk k) :
    ∀ fuel, AllSafe tk k fuel := by
  intro fuel
  induction fuel with
  | zero =>
    refine ⟨fun _ _ => ?_, fun _ _ => ?_, fun _ _ _ => ?_, fun _ _ => ?_,
      fun _ _ _ => ?_, fun _ _ => ?_, fun _ _ _ => ?_, fun _ _ => ?_,
      fun _ _ _ => ?_, fun _ _ => ?_, fun _ _ _ => ?_, fun _ _ => ?_,
      fun _ _ _ => ?_, fun _ _ => ?_, fun _ _ => ?_, fun _ _ => ?_,
      fun _ _ => ?_, fun _ _ => ?_, fun _ _ => ?_, fun _ _ => ?_,
      fun _ _ _ => ?_, fun _ _ => ?_, fun _ _ => ?_, fun _ _ _ => ?_⟩ <;>
    simp [PSafe, primary, unary, factorLoop, factor, termLoop, term, comparisonLoop,
      comparison, equalityLoop, equality, logicalAndLoop, logical_and, logicalOrLoop,
      logical_or, assignment, expression, statement, var_statement, print_statement,
      expression_statement, blockLoop, blockP, if_statement, parseStatementsLoop]
  | succ fuel ih =>
    obtain ⟨ihPrimary, ihUnary, ihFactorLoop, ihFactor, ihTermLoop, ihTerm, ihCompLoop,
      ihComp, ihEqLoop, ihEq, ihAndLoop, ihAnd, ihOrLoop, ihOr, ihAssign, ihExpr,
      ihStmt, ihVarStmt, ihPrintStmt, ihExprStmt, ihBlockLoop, ihBlock, ihIfStmt,
      ihParseLoop⟩ := ih
    refine ⟨?_, ?_, ?_, ?_, ?_, ?_, ?_, ?_, ?_, ?_, ?_, ?_, ?_, ?_, ?_, ?_, ?_, ?_,
      ?_, ?_, ?_, ?_, ?_, ?_⟩
    · -- primary
      intro cur hc
      obtain ⟨token, hpk, hget⟩ := peekP_ok hk hc
      simp only [primary, hpk, rbind]
      cases htt : token.token_type
      case TRUE => exact pfinish_psafe hk hc (isAtEnd_false_of_get hget (by simp [htt])) _
      case FALSE => exact pfinish_psafe hk hc (isAtEnd_false_of_get hget (by simp [htt])) _
      case NIL => exact pfinish_psafe hk hc (isAtEnd_false_of_get hget (by simp [htt])) _
      case NUMBER =>
        cases token.literal with
        | none => exact pthrow_psafe hk hc
        | some lit =>
          show PSafe k (match parse_f64 lit with
            | some n => pfinish tk (Expr.Literal (LiteralValue.Number n)) cur
            | none => pthrow tk "Invalid number literal" cur)
          cases parse_f64 lit with
          | none => exact pthrow_psafe hk hc
          | some n => exact pfinish_psafe hk hc (isAtEnd_false_of_get hget (by simp [htt])) _
      case STRING =>
        cases token.literal with
        | none => exact pthrow_psafe hk hc
        | some s => exact pfinish_psafe hk hc (isAtEnd_false_of_get hget (by simp [htt])) _
      case LEFT_PAREN =>
        obtain ⟨t2, hadv, hle⟩ := advanceP_ok hk hc (isAtEnd_false_of_get hget (by simp [htt]))
        simp only [hadv, pbind]
        refine pbind_psafe (ihExpr _ hle) (fun inner c hc2 => ?_)
        exact pbind_psafe (consumeP_psafe hk hc2) (fun _ c2 hc3 => psafe_ok _ hc3)
      case IDENTIFIER =>
        obtain ⟨t2, hadv, hle⟩ := advanceP_ok hk hc (isAtEnd_false_of_get hget (by simp [htt]))
        simp only [hadv, pbind]
        exact psafe_ok _ hle
      all_goals exact pthrow_psafe hk hc
    · -- unary
      intro cur hc
      obtain ⟨b, cur2, hma, hc2, hbf, hbt⟩ := matchAnyP_ok hk [.BANG, .MINUS] hc
      simp only [unary, hma, pbind]
      cases b with
      | false => simp only [if_bool_false]; exact ihPrimary _ hc2
      | true =>
        obtain ⟨hcur2, h1⟩ := hbt rfl
        obtain ⟨op, hprev⟩ := previousP_ok hk h1 hc2
        simp only [if_bool_true, hprev, rbind]
        exact pbind_psafe (ihUnary _ hc2) (fun right c hc3 => psafe_ok _ hc3)
    · -- factorLoop
      intro e cur hc
      obtain ⟨b, cur2, hma, hc2, hbf, hbt⟩ := matchAnyP_ok hk [.STAR, .SLASH] hc
      simp only [factorLoop, hma, pbind]
      cases b with
      | false => simp only [if_bool_false]; exact psafe_ok _ hc2
      | true =>
        obtain ⟨hcur2, h1⟩ := hbt rfl
        obtain ⟨op, hprev⟩ := previousP_ok hk h1 hc2
        simp only [if_bool_true, hprev, rbind]
        exact pbind_psafe (ihUnary _ hc2) (fun right c hc3 => ihFactorLoop _ _ hc3)
    · -- factor
      intro cur hc
      simp only [factor]
      exact pbind_psafe (ihUnary _ hc) (fun e c hc2 => ihFactorLoop _ _ hc2)
    · -- termLoop
      intro e cur hc
      obtain ⟨b, cur2, hma, hc2, hbf, hbt⟩ := matchAnyP_ok hk [.PLUS, .MINUS] hc
      simp only [termLoop, hma, pbind]
      cases b with
      | false => simp only [if_bool_false]; exact psafe_ok _ hc2
      | true =>
        obtain ⟨hcur2, h1⟩ := hbt rfl
        obtain ⟨op, hprev⟩ := previousP_ok hk h1 hc2
        simp only [if_bool_true, hprev, rbind]
        exact pbind_psafe (ihFactor _ hc2) (fun right c hc3 => ihTermLoop _ _ hc3)
    · -- term
      intro cur hc
      simp only [term]
      exact pbind_psafe (ihFactor _ hc) (fun e c hc2 => ihTermLoop _ _ hc2)
    · -- comparisonLoop
      intro e cur hc
      obtain ⟨b, cur2, hma, hc2, hbf, hbt⟩ :=
        matchAnyP_ok hk [.GREATER, .GREATER_EQUAL, .LESS, .LESS_EQUAL] hc
      simp only [comparisonLoop, hma, pbind]
      cases b with
      | false => simp only [if_bool_false]; exact psafe_ok _ hc2
      | true =>
        obtain ⟨hcur2, h1⟩ := hbt rfl
        obtain ⟨op, hprev⟩ := previousP_ok hk h1 hc2
        simp only [if_bool_true, hprev, rbind]
        exact pbind_psafe (ihTerm _ hc2) (fun right c hc3 => ihCompLoop _ _ hc3)
    · -- comparison
      intro cur hc
      simp only [comparison]
      exact pbind_psafe (ihTerm _ hc) (fun e c hc2 => ihCompLoop _ _ hc2)
    · -- equalityLoop
      intro e cur hc
      obtain ⟨b, cur2, hma, hc2, hbf, hbt⟩ := matchAnyP_ok hk [.BANG_EQUAL, .EQUAL_EQUAL] hc
      simp only [equalityLoop, hma, pbind]
      cases b with
      | false => simp only [if_bool_false]; exact psafe_ok _ hc2
      | true =>
        obtain ⟨hcur2, h1⟩ := hbt rfl
        obtain ⟨op, hprev⟩ := previousP_ok hk h1 hc2
        simp only [if_bool_true, hprev, rbind]
        exact pbind_psafe (ihComp _ hc2) (fun right c hc3 => ihEqLoop _ _ hc3)
    · -- equality
      intro cur hc
      simp only [equality]
      exact pbind_psafe (ihComp _ hc) (fun e c hc2 => ihEqLoop _ _ hc2)
    · -- logicalAndLoop
      intro e cur hc
      obtain ⟨b, cur2, hma, hc2, hbf, hbt⟩ := matchAnyP_ok hk [.AND] hc
      simp only [logicalAndLoop, hma, pbind]
      cases b with
      | false => simp only [if_bool_false]; exact psafe_ok _ hc2
      | true =>
        obtain ⟨hcur2, h1⟩ := hbt rfl
        obtain ⟨op, hprev⟩ := previousP_ok hk h1 hc2
        simp only [if_bool_true, hprev, rbind]
        exact pbind_psafe (ihEq _ hc2) (fun right c hc3 => ihAndLoop _ _ hc3)
    · -- logical_and
      intro cur hc
      simp only [logical_and]
      exact pbind_psafe (ihEq _ hc) (fun e c hc2 => ihAndLoop _ _ hc2)
    · -- logicalOrLoop
      intro e cur hc
      obtain ⟨b, cur2, hma, hc2, hbf, hbt⟩ := matchAnyP_ok hk [.OR] hc
      simp only [logicalOrLoop, hma, pbind]
      cases b with
      | false => simp only [if_bool_false]; exact psafe_ok _ hc2
      | true =>
        obtain ⟨hcur2, h1⟩ := hbt rfl
        obtain ⟨op, hprev⟩ := previousP_ok hk h1 hc2
        simp only [if_bool_true, hprev, rbind]
        exact pbind_psafe (ihAnd _ hc2) (fun right c hc3 => ihOrLoop _ _ hc3)
    · -- logical_or
      intro cur hc
      simp only [logical_or]
      exact pbind_psafe (ihAnd _ hc) (fun e c hc2 => ihOrLoop _ _ hc2)
    · -- assignment
      intro cur hc
      simp only [assignment]
      refine pbind_psafe (ihOr _ hc) (fun expr c hc2 => ?_)
      obtain ⟨b, cur2, hma, hc3, hbf, hbt⟩ := matchAnyP_ok hk [.EQUAL] hc2
      simp only [hma, pbind]
      cases b with
      | true =>
        simp only [if_bool_true]
        refine pbind_psafe (ihAssign _ hc3) (fun value c2 hc4 => ?_)
        cases expr
        case Variable name => exact psafe_ok _ hc4
        all_goals exact pthrow_psafe hk hc4
      | false =>
        simp only [if_bool_false]
        obtain ⟨b2, cur3, hma2, hc4, hbf2, hbt2⟩ := matchAnyP_ok hk [.OR] hc3
        simp only [hma2, pbind]
        cases b2 with
        | true =>
          simp only [if_bool_true]
          exact pbind_psafe (ihOr _ hc4) (fun _ c hc5 => psafe_ok _ hc5)
        | false => simp only [if_bool_false]; exact psafe_ok _ hc4
    · -- expression
      intro cur hc
      simp only [expression]
      exact ihAssign _ hc
    · -- statement
      intro cur hc
      simp only [statement]
      obtain ⟨b1, c1, hma1, hc1, hb1f, hb1t⟩ := matchAnyP_ok hk [.PRINT] hc
      simp only [hma1, pbind]
      cases b1 with
      | true => simp only [if_bool_true]; exact ihPrintStmt _ hc1
      | false =>
        simp only [if_bool_false]
        obtain ⟨b2, c2, hma2, hc2', hb2f, hb2t⟩ := matchAnyP_ok hk [.VAR] hc1
        simp only [hma2, pbind]
        cases b2 with
        | true => simp only [if_bool_true]; exact ihVarStmt _ hc2'
        | false =>
          simp only [if_bool_false]
          obtain ⟨b3, c3, hma3, hc3', hb3f, hb3t⟩ := matchAnyP_ok hk [.LEFT_BRACE] hc2'
          simp only [hma3, pbind]
          cases b3 with
          | true =>
            simp only [if_bool_true]
            exact pbind_psafe (ihBlock _ hc3') (fun stmts c hcc => psafe_ok _ hcc)
          | false =>
            simp only [if_bool_false]
            obtain ⟨b4, c4, hma4, hc4', hb4f, hb4t⟩ := matchAnyP_ok hk [.IF] hc3'
            simp only [hma4, pbind]
            cases b4 with
            | true => simp only [if_bool_true]; exact ihIfStmt _ hc4'
            | false => simp only [if_bool_false]; exact ihExprStmt _ hc4'
    · -- var_statement
      intro cur hc
      simp only [var_statement]
      refine pbind_psafe (consumeP_psafe hk hc) (fun name c hc1 => ?_)
      refine pbind_psafe ?_ (fun initializer c2 hc2 =>
        pbind_psafe (consumeP_psafe hk hc2) (fun _ c3 hc3 => psafe_ok _ hc3))
      by_cases hcheck : checkP tk .EQUAL c = true
      · rw [if_pos hcheck]
        obtain ⟨t2, hadv, hle⟩ := advanceP_ok hk hc1 (checkP_true_not_end hcheck)
        simp only [hadv, pbind]
        exact pbind_psafe (ihExpr _ hle) (fun e c4 hc4 => psafe_ok _ hc4)
      · rw [if_neg hcheck]
        exact psafe_ok _ hc1
    · -- print_statement
      intro cur hc
      simp only [print_statement]
      exact pbind_psafe (ihExpr _ hc) (fun v c hc2 =>
        pbind_psafe (consumeP_psafe hk hc2) (fun _ c2 hc3 => psafe_ok _ hc3))
    · -- expression_statement
      intro cur hc
      simp only [expression_statement]
      exact pbind_psafe (ihExpr _ hc) (fun e c hc2 =>
        pbind_psafe (consumeP_psafe hk hc2) (fun _ c2 hc3 => psafe_ok _ hc3))
    · -- blockLoop
      intro acc cur hc
      simp only [blockLoop]
      by_cases hcond : (!checkP tk .RIGHT_BRACE cur && !isAtEndP tk cur) = true
      · rw [if_pos hcond]
        exact pbind_psafe (ihStmt _ hc) (fun s c hc2 => ihBlockLoop _ _ hc2)
      · rw [if_neg hcond]
        exact pbind_psafe (consumeP_psafe hk hc) (fun _ c hc2 => psafe_ok _ hc2)
    · -- blockP
      intro cur hc
      simp only [blockP]
      exact ihBlockLoop _ _ hc
    · -- if_statement
      intro cur hc
      simp only [if_statement]
      refine pbind_psafe (consumeP_psafe hk hc) (fun _ c1 hc1 => ?_)
      refine pbind_psafe (ihExpr _ hc1) (fun condition c2 hc2 => ?_)
      refine pbind_psafe (consumeP_psafe hk hc2) (fun _ c3 hc3 => ?_)
      refine pbind_psafe (ihStmt _ hc3) (fun then_branch c4 hc4 => ?_)
      obtain ⟨b, c5, hma, hc5, hbf, hbt⟩ := matchAnyP_ok hk [.ELSE] hc4
      simp only [hma, pbind]
      cases b with
      | true =>
        simp only [if_bool_true]
        exact pbind_psafe (ihStmt _ hc5) (fun eb c6 hc6 => psafe_ok _ hc6)
      | false => simp only [if_bool_false]; exact psafe_ok _ hc5
    · -- parseStatementsLoop
      intro acc cur hc
      simp only [parseStatementsLoop]
      by_cases hend : isAtEndP tk cur = true
      · rw [if_pos hend]
        exact psafe_ok _ hc
      · rw [if_neg hend]
        exact pbind_psafe (ihStmt _ hc) (fun s c hc2 => ihParseLoop _ _ hc2)

theorem psafe_ne_oob {α : Type _} {k : Nat} {r : Except PErr (α × Nat)}
    (h : PSafe k r) : r ≠ .error .oob := by
  intro heq
  rw [heq] at h
  simp [PSafe] at h

theorem exists_isFirstEof (tk : List Token) (h : ∃ t ∈ tk, t.token_type = .EOF) :
    ∃ k, IsFirstEof tk k := by
  induction tk with
  | nil => simp at h
  | cons a l ih =>
    by_cases ha : a.token_type = .EOF
    · exact ⟨0, ⟨a, rfl, ha⟩, fun i t hi => by omega⟩
    · obtain ⟨t, htmem, htt⟩ := h
      have hl : ∃ t ∈ l, t.token_type = .EOF := by
        rcases List.mem_cons.mp htmem with rfl | hm
        · exact absurd htt ha
        · exact ⟨t, hm, htt⟩
      obtain ⟨k, ⟨te, hte, htyp⟩, hfirst⟩ := ih hl
      refine ⟨k + 1, ⟨te, by simpa using hte, htyp⟩, ?_⟩
      intro i t2 hi hget
      cases i with
      | zero =>
        simp only [List.get?_cons_zero, Option.some.injEq] at hget
        subst hget
        exact ha
      | succ i =>
        apply hfirst i t2 (by omega)
        simpa using hget

/-- Claim C10: for every token list containing an end-of-input token (as every
lexer output does), the parser cursor never advances past the first EOF:
`advance` does not step at end of input, the cursor stays bounded by the first
EOF's index through every parser function, and `parse` / `parse_statements`
never perform an out-of-bounds token access (`PErr.oob`, the model of the Rust
index panic), whatever the fuel. -/
theorem c10_parser_safety (tk : List Token)
    (hEof : ∃ t ∈ tk, t.token_type = .EOF) :
    (∀ cur t cur2, advanceP tk cur = .ok (t, cur2) →
      (isAtEndP tk cur = true → cur2 = cur) ∧
      (isAtEndP tk cur = false → cur2 = cur + 1)) ∧
    ∃ k, IsFirstEof tk k ∧
      ∀ fuel, PSafe k (parse tk fuel) ∧ PSafe k (parse_statements tk fuel) ∧
        parse tk fuel ≠ .error .oob ∧ parse_statements tk fuel ≠ .error .oob := by
  constructor
  · intro cur t cur2 hadv
    unfold advanceP at hadv
    constructor
    · intro hend
      rw [if_pos hend] at hadv
      simp only [] at hadv
      cases hprev : previousP tk cur with
      | error e => rw [hprev] at hadv; cases hadv
      | ok t2 =>
        rw [hprev] at hadv
        cases hadv
        rfl
    · intro hend
      rw [if_neg (by simp [hend])] at hadv
      simp only [] at hadv
      cases hprev : previousP tk (cur + 1) with
      | error e => rw [hprev] at hadv; cases hadv
      | ok t2 =>
        rw [hprev] at hadv
        cases hadv
        rfl
  · obtain ⟨k, hk⟩ := exists_isFirstEof tk hEof
    refine ⟨k, hk, fun fuel => ?_⟩
    obtain ⟨-, -, -, -, -, -, -, -, -, -, -, -, -, -, -, hexpr, -, -, -, -, -, -, -, hploop⟩ :=
      allSafe tk k hk fuel
    have hparse : PSafe k (parse tk fuel) := hexpr 0 (Nat.zero_le k)
    have hps : PSafe k (parse_statements tk fuel) := hploop [] 0 (Nat.zero_le k)
    exact ⟨hparse, hps, psafe_ne_oob hparse, psafe_ne_oob hps⟩

/-- Witness for C10 on the token list `[EOF]`. -/
theorem c10_parser_safety_witness :
    (∀ cur t cur2, advanceP [⟨.EOF, "", none, 1⟩] cur = .ok (t, cur2) →
      (isAtEndP [⟨.EOF, "", none, 1⟩] cur = true → cur2 = cur) ∧
      (isAtEndP [⟨.EOF, "", none, 1⟩] cur = false → cur2 = cur + 1)) ∧
    ∃ k, IsFirstEof [⟨.EOF, "", none, 1⟩] k ∧
      ∀ fuel, PSafe k (parse [⟨.EOF, "", none, 1⟩] fuel) ∧
        PSafe k (parse_statements [⟨.EOF, "", none, 1⟩] fuel) ∧
        parse [⟨.EOF, "", none, 1⟩] fuel ≠ .error .oob ∧
        parse_statements [⟨.EOF, "", none, 1⟩] fuel ≠ .error .oob :=
  c10_parser_safety [⟨.EOF, "", none, 1⟩] ⟨⟨.EOF, "", none, 1⟩, by simp, rfl⟩
